import Mathlib

/-!
Verification of the openai-json reconciliation pipeline against its
specification.  The Python sources under `src/openai_json/` are embedded
shallowly: strings are lists of characters, Python dicts are
insertion-ordered association lists, Python exceptions are `Except`
errors, and Python floats are modelled as rationals.
-/

namespace OpenAIJson

/-!
## Key Normalizer: `SchemaHandler.normalize_text`
(`src/openai_json/schema_handler.py`, lines 465-493)

The function is a pipeline:
  1. `re.sub` replacing underscore, hyphen and slash by a space
  2. `re.sub(r"(?<=[a-z])([A-Z])", r" \1", text)`
  3. `re.sub(r"\([^)]*\)", "", text)`
  4. `re.sub(r"\b(and/or|&|/)\b", " and ", text, flags=re.IGNORECASE)`
  5. `" ".join(text.lower().split())`
  6. `text.replace(" ", "_")`

Step 1 removes every `/`, so of the alternatives in step 4 only `&` can
ever match inside the pipeline; `\b&\b` matches exactly the occurrences
of `&` with a word character (ASCII `\w` fragment) immediately on both
sides.  Steps 5 and 6 together collapse whitespace runs into single
underscores, dropping leading and trailing whitespace.
-/

/-- Characters treated as whitespace by Python `str.split` (ASCII fragment). -/
def pyIsSpace (c : Char) : Bool :=
  c = ' ' || c = '\t' || c = '\n' || c = '\r' || c = '\x0b' || c = '\x0c'

/-- The delimiters replaced by a space by `re.sub` replacing underscore, hyphen and slash by a space. -/
def isDelim (c : Char) : Bool := c = '_' || c = '-' || c = '/'

def isAsciiLower (c : Char) : Bool := 'a' ≤ c && c ≤ 'z'

def isAsciiUpper (c : Char) : Bool := 'A' ≤ c && c ≤ 'Z'

def isAsciiDigit (c : Char) : Bool := '0' ≤ c && c ≤ '9'

/-- Word characters for the regex `\b` boundary (ASCII fragment of `\w`). -/
def isWordChar (c : Char) : Bool :=
  isAsciiLower c || isAsciiUpper c || isAsciiDigit c || c = '_'

/-- Step 1: `re.sub` replacing underscore, hyphen and slash by a space. -/
def subDelims (l : List Char) : List Char :=
  l.map (fun c => if isDelim c then ' ' else c)

/-- Step 2 helper: walks the string remembering the previous original
character, inserting a space before each ASCII uppercase letter that is
preceded by an ASCII lowercase letter. -/
def camelAux (prev : Char) : List Char → List Char
  | [] => []
  | c :: rest =>
    (if isAsciiLower prev && isAsciiUpper c then [' ', c] else [c]) ++ camelAux c rest

/-- Step 2: `re.sub(r"(?<=[a-z])([A-Z])", r" \1", text)`. -/
def camel : List Char → List Char
  | [] => []
  | c :: rest => c :: camelAux c rest

/-- Splits a list at the first `)`:
returns the part strictly before it and the part strictly after it. -/
def splitAtRParen : List Char → Option (List Char × List Char)
  | [] => Option.none
  | c :: rest =>
    if c = ')' then Option.some ([], rest)
    else (splitAtRParen rest).map (fun p => (c :: p.1, p.2))

theorem splitAtRParen_length {l a b : List Char}
    (h : splitAtRParen l = Option.some (a, b)) : b.length < l.length := by
  induction l generalizing a b with
  | nil => simp [splitAtRParen] at h
  | cons c rest ih =>
    by_cases hc : c = ')'
    · simp [splitAtRParen, hc] at h
      simp [← h.2, List.length_cons]
    · rw [splitAtRParen, if_neg hc] at h
      cases hs : splitAtRParen rest with
      | none => rw [hs] at h; simp at h
      | some p =>
        rw [hs, Option.map_some'] at h
        simp only [Option.some.injEq, Prod.mk.injEq] at h
        have := ih (a := p.1) (b := p.2) (by rw [hs])
        simp only [List.length_cons, ← h.2]
        omega

/-- Fuel-indexed worker for step 3; `fuel` only serves termination and is
irrelevant once it dominates the length of the list (see
`removeParensF_congr`). -/
def removeParensF : Nat → List Char → List Char
  | 0, l => l
  | _ + 1, [] => []
  | fuel + 1, c :: rest =>
    if c = '(' then
      match splitAtRParen rest with
      | Option.some p => removeParensF fuel p.2
      | Option.none => c :: rest
    else
      c :: removeParensF fuel rest

theorem removeParensF_congr :
    ∀ (f g : Nat) (l : List Char), l.length ≤ f → l.length ≤ g →
      removeParensF f l = removeParensF g l := by
  intro f
  induction f with
  | zero =>
    intro g l hf _
    have : l = [] := List.length_eq_zero.mp (Nat.le_zero.mp hf)
    subst this
    cases g <;> rfl
  | succ f ih =>
    intro g l hf hg
    cases g with
    | zero =>
      have : l = [] := List.length_eq_zero.mp (Nat.le_zero.mp hg)
      subst this; rfl
    | succ g =>
      cases l with
      | nil => rfl
      | cons c rest =>
        simp only [removeParensF]
        by_cases hc : c = '('
        · simp only [if_pos hc]
          cases hs : splitAtRParen rest with
          | none => rfl
          | some p =>
            have hlen := splitAtRParen_length (a := p.1) (b := p.2)
              (by simpa using hs)
            have hrest : rest.length ≤ f := by
              simp [List.length_cons] at hf; omega
            have hrest' : rest.length ≤ g := by
              simp [List.length_cons] at hg; omega
            exact ih g p.2 (by omega) (by omega)
        · simp only [if_neg hc]
          have hrest : rest.length ≤ f := by
            simp [List.length_cons] at hf; omega
          have hrest' : rest.length ≤ g := by
            simp [List.length_cons] at hg; omega
          rw [ih g rest hrest hrest']

/-- Step 3: `re.sub(r"\([^)]*\)", "", text)`.  A match runs from a `(` to
the first `)` after it; if a `(` has no later `)`, no further match is
possible anywhere in the string. -/
def removeParens (l : List Char) : List Char := removeParensF l.length l

theorem removeParens_nil : removeParens [] = [] := rfl

theorem removeParens_cons (c : Char) (rest : List Char) :
    removeParens (c :: rest) =
      if c = '(' then
        match splitAtRParen rest with
        | Option.some p => removeParens p.2
        | Option.none => c :: rest
      else
        c :: removeParens rest := by
  show removeParensF (rest.length + 1) (c :: rest) = _
  simp only [removeParensF]
  by_cases hc : c = '('
  · simp only [if_pos hc]
    cases hs : splitAtRParen rest with
    | none => rfl
    | some p =>
      have hlen := splitAtRParen_length (a := p.1) (b := p.2) (by simpa using hs)
      exact removeParensF_congr _ _ _ (by omega) (le_refl _)
  · simp only [if_neg hc]
    rfl

/-- Is the next character a word character (`\b` test after a `&`)? -/
def wordAfter : List Char → Bool
  | [] => false
  | c :: _ => isWordChar c

/-- Is the previous character a word character (`\b` test before a `&`)?
`Option.none` stands for the start of the string. -/
def wordBefore : Option Char → Bool
  | Option.none => false
  | Option.some c => isWordChar c

/-- Step 4 helper: replaces every `&` that has word characters
immediately on both (original) sides by `" and "`.  The scan remembers
the previous character of the original string, matching how `re.sub`
resumes after a single-character match. -/
def ampAux (prev : Option Char) : List Char → List Char
  | [] => []
  | c :: rest =>
    if c = '&' && wordBefore prev && wordAfter rest then
      ' ' :: 'a' :: 'n' :: 'd' :: ' ' :: ampAux (Option.some c) rest
    else
      c :: ampAux (Option.some c) rest

/-- Step 4: `re.sub(r"\b(and/or|&|/)\b", " and ", text)`; after step 1 the
string has no `/`, so only the `&` alternative can match. -/
def amp (l : List Char) : List Char := ampAux Option.none l

/-- Python `str.lower` restricted to its ASCII action (the pipeline's
regexes are all ASCII). -/
def pyLower (c : Char) : Char :=
  if isAsciiUpper c then Char.ofNat (c.toNat + 32) else c

/-- State of the right-to-left whitespace-collapsing scan:
`noTok` - only whitespace so far; `tok` - the output starts with a token
character; `gap` - whitespace seen with a token further right. -/
inductive CJ
  | noTok
  | tok
  | gap
deriving DecidableEq

/-- One step of the whitespace collapse, processing character `c` with
the collapse of the rest of the string already built. -/
def cjStep (sep : Char) (c : Char) (acc : List Char × CJ) : List Char × CJ :=
  if pyIsSpace c then
    match acc.2 with
    | CJ.noTok => (acc.1, CJ.noTok)
    | _ => (acc.1, CJ.gap)
  else
    match acc.2 with
    | CJ.gap => (c :: sep :: acc.1, CJ.tok)
    | _ => (c :: acc.1, CJ.tok)

def cjAux (sep : Char) : List Char → List Char × CJ
  | [] => ([], CJ.noTok)
  | c :: rest => cjStep sep c (cjAux sep rest)

/-- Steps 5-6: `" ".join(text.split())` followed by `replace(" ", sep)`:
whitespace runs collapse to a single `sep`, leading and trailing
whitespace disappears.  (Tokens contain no space character, so the
final `replace` affects exactly the joining spaces.) -/
def pyCollapse (sep : Char) (l : List Char) : List Char := (cjAux sep l).1

/-- `SchemaHandler.normalize_text` on character lists. -/
def normalizeChars (l : List Char) : List Char :=
  pyCollapse '_' ((amp (removeParens (camel (subDelims l)))).map pyLower)

/-- `SchemaHandler.normalize_text` (`schema_handler.py`, lines 465-493). -/
def normalize_text (s : String) : String := String.mk (normalizeChars s.data)

/-!
### Character-level facts

The regexes in the pipeline act on ASCII code points, so most transport
lemmas reduce to arithmetic on `Char.toNat`.
-/

theorem charLe_iff {a c : Char} : (a ≤ c) ↔ a.toNat ≤ c.toNat := by
  rw [Char.le_def, UInt32.le_def, BitVec.le_def]
  exact Iff.rfl

theorem toNat_ofNat_valid {n : Nat} (h : n.isValidChar) : (Char.ofNat n).toNat = n := by
  rw [Char.ofNat, dif_pos h]
  rfl

theorem charEq_iff {a b : Char} : a = b ↔ a.toNat = b.toNat := by
  constructor
  · intro h; rw [h]
  · intro h
    apply Char.ext
    apply UInt32.eq_of_toBitVec_eq
    exact BitVec.eq_of_toNat_eq h

theorem isAsciiUpper_iff {c : Char} : isAsciiUpper c = true ↔ 65 ≤ c.toNat ∧ c.toNat ≤ 90 := by
  unfold isAsciiUpper
  rw [Bool.and_eq_true, decide_eq_true_eq, decide_eq_true_eq, charLe_iff, charLe_iff]
  exact Iff.rfl

theorem isAsciiLower_iff {c : Char} : isAsciiLower c = true ↔ 97 ≤ c.toNat ∧ c.toNat ≤ 122 := by
  unfold isAsciiLower
  rw [Bool.and_eq_true, decide_eq_true_eq, decide_eq_true_eq, charLe_iff, charLe_iff]
  exact Iff.rfl

theorem isAsciiDigit_iff {c : Char} : isAsciiDigit c = true ↔ 48 ≤ c.toNat ∧ c.toNat ≤ 57 := by
  unfold isAsciiDigit
  rw [Bool.and_eq_true, decide_eq_true_eq, decide_eq_true_eq, charLe_iff, charLe_iff]
  exact Iff.rfl

theorem isWordChar_iff {c : Char} :
    isWordChar c = true ↔
      (97 ≤ c.toNat ∧ c.toNat ≤ 122) ∨ (65 ≤ c.toNat ∧ c.toNat ≤ 90) ∨
      (48 ≤ c.toNat ∧ c.toNat ≤ 57) ∨ c.toNat = 95 := by
  unfold isWordChar
  simp only [Bool.or_eq_true, decide_eq_true_eq]
  rw [isAsciiLower_iff, isAsciiUpper_iff, isAsciiDigit_iff, charEq_iff]
  have h95 : ('_' : Char).toNat = 95 := rfl
  rw [h95]
  tauto

theorem isDelim_iff {c : Char} :
    isDelim c = true ↔ c.toNat = 95 ∨ c.toNat = 45 ∨ c.toNat = 47 := by
  unfold isDelim
  simp only [Bool.or_eq_true, decide_eq_true_eq]
  rw [charEq_iff, charEq_iff, charEq_iff]
  have h95 : ('_' : Char).toNat = 95 := rfl
  have h45 : ('-' : Char).toNat = 45 := rfl
  have h47 : ('/' : Char).toNat = 47 := rfl
  rw [h95, h45, h47]
  tauto

theorem pyIsSpace_iff {c : Char} :
    pyIsSpace c = true ↔
      c.toNat = 32 ∨ c.toNat = 9 ∨ c.toNat = 10 ∨ c.toNat = 13 ∨
      c.toNat = 11 ∨ c.toNat = 12 := by
  unfold pyIsSpace
  simp only [Bool.or_eq_true, decide_eq_true_eq]
  rw [charEq_iff, charEq_iff, charEq_iff, charEq_iff, charEq_iff, charEq_iff]
  have e1 : (' ' : Char).toNat = 32 := rfl
  have e2 : ('\t' : Char).toNat = 9 := rfl
  have e3 : ('\n' : Char).toNat = 10 := rfl
  have e4 : ('\r' : Char).toNat = 13 := rfl
  have e5 : ('\x0b' : Char).toNat = 11 := rfl
  have e6 : ('\x0c' : Char).toNat = 12 := rfl
  rw [e1, e2, e3, e4, e5, e6]
  tauto

/-- Characters that matter for the parenthesis-removal step. -/
def isParen (c : Char) : Bool := c = '(' || c = ')'

theorem isParen_iff {c : Char} : isParen c = true ↔ c.toNat = 40 ∨ c.toNat = 41 := by
  unfold isParen
  simp only [Bool.or_eq_true, decide_eq_true_eq]
  rw [charEq_iff, charEq_iff]
  have h40 : ('(' : Char).toNat = 40 := rfl
  have h41 : (')' : Char).toNat = 41 := rfl
  rw [h40, h41]

theorem pyLower_toNat_of_upper {c : Char} (h : isAsciiUpper c = true) :
    (pyLower c).toNat = c.toNat + 32 := by
  have hb := isAsciiUpper_iff.mp h
  rw [pyLower, if_pos h]
  exact toNat_ofNat_valid (Or.inl (by omega))

theorem pyLower_eq_self {c : Char} (h : isAsciiUpper c = false) : pyLower c = c := by
  rw [pyLower, if_neg]
  simp [h]

theorem isAsciiUpper_pyLower (c : Char) : isAsciiUpper (pyLower c) = false := by
  cases h : isAsciiUpper c with
  | true =>
    have ht := pyLower_toNat_of_upper h
    have hb := isAsciiUpper_iff.mp h
    rw [Bool.eq_false_iff]
    intro hc
    have := isAsciiUpper_iff.mp hc
    omega
  | false => rw [pyLower_eq_self h, h]

theorem pyLower_idem (c : Char) : pyLower (pyLower c) = pyLower c :=
  pyLower_eq_self (isAsciiUpper_pyLower c)

theorem isDelim_pyLower (c : Char) : isDelim (pyLower c) = isDelim c := by
  cases h : isAsciiUpper c with
  | true =>
    have ht := pyLower_toNat_of_upper h
    have hb := isAsciiUpper_iff.mp h
    have h1 : isDelim (pyLower c) = false := by
      rw [Bool.eq_false_iff]; intro hc
      have := isDelim_iff.mp hc; omega
    have h2 : isDelim c = false := by
      rw [Bool.eq_false_iff]; intro hc
      have := isDelim_iff.mp hc; omega
    rw [h1, h2]
  | false => rw [pyLower_eq_self h]

theorem isWordChar_pyLower (c : Char) : isWordChar (pyLower c) = isWordChar c := by
  cases h : isAsciiUpper c with
  | true =>
    have ht := pyLower_toNat_of_upper h
    have hb := isAsciiUpper_iff.mp h
    have h1 : isWordChar (pyLower c) = true := isWordChar_iff.mpr (Or.inl (by omega))
    have h2 : isWordChar c = true := isWordChar_iff.mpr (Or.inr (Or.inl (by omega)))
    rw [h1, h2]
  | false => rw [pyLower_eq_self h]

theorem isParen_pyLower (c : Char) : isParen (pyLower c) = isParen c := by
  cases h : isAsciiUpper c with
  | true =>
    have ht := pyLower_toNat_of_upper h
    have hb := isAsciiUpper_iff.mp h
    have h1 : isParen (pyLower c) = false := by
      rw [Bool.eq_false_iff]; intro hc
      have := isParen_iff.mp hc; omega
    have h2 : isParen c = false := by
      rw [Bool.eq_false_iff]; intro hc
      have := isParen_iff.mp hc; omega
    rw [h1, h2]
  | false => rw [pyLower_eq_self h]

theorem pyLower_eq_amp_iff {c : Char} : pyLower c = '&' ↔ c = '&' := by
  cases h : isAsciiUpper c with
  | true =>
    have ht := pyLower_toNat_of_upper h
    have hb := isAsciiUpper_iff.mp h
    constructor
    · intro hc
      have := charEq_iff.mp hc
      have ha : ('&' : Char).toNat = 38 := rfl
      omega
    · intro hc
      subst hc
      simp [isAsciiUpper] at h
  | false => rw [pyLower_eq_self h]

theorem isParen_of_pyIsSpace {c : Char} (h : pyIsSpace c = true) : isParen c = false := by
  have := pyIsSpace_iff.mp h
  rw [Bool.eq_false_iff]
  intro hc
  have := isParen_iff.mp hc
  omega

/-!
### Characters produced by each pipeline step
-/

theorem mem_subDelims {c : Char} {l : List Char} (h : c ∈ subDelims l) :
    c = ' ' ∨ (c ∈ l ∧ isDelim c = false) := by
  unfold subDelims at h
  obtain ⟨d, hd, hdc⟩ := List.mem_map.mp h
  by_cases hdel : isDelim d = true
  · left; rw [← hdc, if_pos hdel]
  · right
    rw [← hdc, if_neg hdel]
    exact ⟨hd, by simpa using hdel⟩

theorem noDelim_subDelims {c : Char} {l : List Char} (h : c ∈ subDelims l) :
    isDelim c = false := by
  rcases mem_subDelims h with h | h
  · rw [h]; rfl
  · exact h.2

theorem subDelims_cons (c : Char) (l : List Char) :
    subDelims (c :: l) = (if isDelim c then ' ' else c) :: subDelims l := rfl

theorem mem_camelAux {c prev : Char} {l : List Char} (h : c ∈ camelAux prev l) :
    c = ' ' ∨ c ∈ l := by
  induction l generalizing prev with
  | nil => simp [camelAux] at h
  | cons d rest ih =>
    rw [camelAux] at h
    by_cases hcam : (isAsciiLower prev && isAsciiUpper d) = true
    · rw [if_pos hcam] at h
      simp only [List.cons_append, List.nil_append, List.mem_cons] at h
      rcases h with h | h | h
      · left; exact h
      · right; simp [h]
      · rcases ih h with h | h
        · left; exact h
        · right; simp [h]
    · rw [if_neg hcam] at h
      simp only [List.cons_append, List.nil_append, List.mem_cons] at h
      rcases h with h | h
      · right; simp [h]
      · rcases ih h with h | h
        · left; exact h
        · right; simp [h]

theorem mem_camel {c : Char} {l : List Char} (h : c ∈ camel l) : c = ' ' ∨ c ∈ l := by
  cases l with
  | nil => simp [camel] at h
  | cons d rest =>
    rw [camel] at h
    simp only [List.mem_cons] at h
    rcases h with h | h
    · right; simp [h]
    · rcases mem_camelAux h with h | h
      · left; exact h
      · right; simp [h]

theorem mem_splitAtRParen_right {c : Char} {l a b : List Char}
    (hs : splitAtRParen l = Option.some (a, b)) (h : c ∈ b) : c ∈ l := by
  induction l generalizing a b with
  | nil => simp [splitAtRParen] at hs
  | cons d rest ih =>
    by_cases hd : d = ')'
    · rw [splitAtRParen, if_pos hd] at hs
      simp only [Option.some.injEq, Prod.mk.injEq] at hs
      rw [← hs.2] at h
      simp [h]
    · rw [splitAtRParen, if_neg hd] at hs
      cases hq : splitAtRParen rest with
      | none => rw [hq] at hs; simp at hs
      | some p =>
        rw [hq, Option.map_some'] at hs
        simp only [Option.some.injEq, Prod.mk.injEq] at hs
        have := ih (a := p.1) (b := p.2) (by rw [hq])
        rw [← hs.2] at h
        simp [this h]

theorem mem_removeParens {c : Char} :
    ∀ {l : List Char}, c ∈ removeParens l → c ∈ l := by
  have main : ∀ (n : Nat) (l : List Char), l.length ≤ n → c ∈ removeParens l → c ∈ l := by
    intro n
    induction n with
    | zero =>
      intro l hl h
      have : l = [] := List.length_eq_zero.mp (Nat.le_zero.mp hl)
      subst this
      simpa [removeParens_nil] using h
    | succ n ih =>
      intro l hl h
      cases l with
      | nil => simpa [removeParens_nil] using h
      | cons d rest =>
        rw [removeParens_cons] at h
        by_cases hd : d = '('
        · rw [if_pos hd] at h
          cases hs : splitAtRParen rest with
          | none => rw [hs] at h; exact h
          | some p =>
            rw [hs] at h
            have hlen := splitAtRParen_length (a := p.1) (b := p.2) (by rw [hs])
            have hml : rest.length ≤ n := by simp [List.length_cons] at hl; omega
            have := ih p.2 (by omega) h
            have := mem_splitAtRParen_right (a := p.1) (b := p.2) (by rw [hs]) this
            simp [this]
        · rw [if_neg hd] at h
          simp only [List.mem_cons] at h
          rcases h with h | h
          · simp [h]
          · have hml : rest.length ≤ n := by simp [List.length_cons] at hl; omega
            simp [ih rest hml h]
  intro l h
  exact main l.length l (le_refl _) h

theorem mem_ampAux {c : Char} {prev : Option Char} {l : List Char}
    (h : c ∈ ampAux prev l) : c ∈ l ∨ c = ' ' ∨ c = 'a' ∨ c = 'n' ∨ c = 'd' := by
  induction l generalizing prev with
  | nil => simp [ampAux] at h
  | cons d rest ih =>
    rw [ampAux] at h
    by_cases hc : (d = '&' && wordBefore prev && wordAfter rest) = true
    · rw [if_pos hc] at h
      simp only [List.mem_cons] at h
      rcases h with h | h | h | h | h | h
      · right; left; exact h
      · right; right; left; exact h
      · right; right; right; left; exact h
      · right; right; right; right; exact h
      · right; left; exact h
      · rcases ih h with h | h
        · left; simp [h]
        · right; exact h
    · rw [if_neg hc] at h
      simp only [List.mem_cons] at h
      rcases h with h | h
      · left; simp [h]
      · rcases ih h with h | h
        · left; simp [h]
        · right; exact h

theorem mem_cjAux {c : Char} {sep : Char} :
    ∀ {l : List Char}, c ∈ (cjAux sep l).1 → c = sep ∨ (c ∈ l ∧ pyIsSpace c = false) := by
  intro l
  induction l with
  | nil => intro h; simp [cjAux] at h
  | cons d rest ih =>
    intro h
    rw [cjAux] at h
    rcases hst : cjAux sep rest with ⟨out, st⟩
    rw [hst] at h
    have ihout : c ∈ out → c = sep ∨ (c ∈ rest ∧ pyIsSpace c = false) := by
      intro hc
      apply ih
      rw [hst]
      exact hc
    by_cases hws : pyIsSpace d = true
    · rw [cjStep, if_pos hws] at h
      have hout : c ∈ out := by cases st <;> simpa using h
      rcases ihout hout with h' | h'
      · left; exact h'
      · right; exact ⟨by simp [h'.1], h'.2⟩
    · have hws' : pyIsSpace d = false := by simpa using hws
      rw [cjStep, if_neg hws] at h
      cases st with
      | gap =>
        simp only [List.mem_cons] at h
        rcases h with h | h | h
        · right; exact ⟨by simp [h], by rw [h]; exact hws'⟩
        · left; exact h
        · rcases ihout h with h' | h'
          · left; exact h'
          · right; exact ⟨by simp [h'.1], h'.2⟩
      | tok =>
        simp only [List.mem_cons] at h
        rcases h with h | h
        · right; exact ⟨by simp [h], by rw [h]; exact hws'⟩
        · rcases ihout h with h' | h'
          · left; exact h'
          · right; exact ⟨by simp [h'.1], h'.2⟩
      | noTok =>
        simp only [List.mem_cons] at h
        rcases h with h | h
        · right; exact ⟨by simp [h], by rw [h]; exact hws'⟩
        · rcases ihout h with h' | h'
          · left; exact h'
          · right; exact ⟨by simp [h'.1], h'.2⟩

/-!
### Step 2 is the identity on uppercase-free strings
-/

theorem camelAux_id {prev : Char} {l : List Char}
    (h : ∀ c ∈ l, isAsciiUpper c = false) : camelAux prev l = l := by
  induction l generalizing prev with
  | nil => rfl
  | cons d rest ih =>
    rw [camelAux]
    have hd : isAsciiUpper d = false := h d (by simp)
    have : (isAsciiLower prev && isAsciiUpper d) = false := by simp [hd]
    rw [this]
    simp only [Bool.false_eq_true, if_false, List.cons_append, List.nil_append,
      List.cons.injEq, true_and]
    exact ih (fun c hc => h c (by simp [hc]))

theorem camel_id {l : List Char} (h : ∀ c ∈ l, isAsciiUpper c = false) :
    camel l = l := by
  cases l with
  | nil => rfl
  | cons d rest =>
    rw [camel]
    simp only [List.cons.injEq, true_and]
    exact camelAux_id (fun c hc => h c (by simp [hc]))

/-!
### Step 3 is the identity on strings where no `(` precedes a `)`
-/

/-- Is there a `)` anywhere in the list? -/
def hasRParen : List Char → Bool
  | [] => false
  | c :: rest => c = ')' || hasRParen rest

/-- No `(` in the list is followed (strictly later) by a `)` - exactly the
strings on which the parenthesis-removal regex has no match. -/
def noPM : List Char → Bool
  | [] => true
  | c :: rest => (if c = '(' then !(hasRParen rest) else true) && noPM rest

theorem splitAtRParen_none {l : List Char} (h : splitAtRParen l = Option.none) :
    hasRParen l = false := by
  induction l with
  | nil => rfl
  | cons c rest ih =>
    by_cases hc : c = ')'
    · rw [splitAtRParen, if_pos hc] at h
      simp at h
    · rw [splitAtRParen, if_neg hc] at h
      cases hs : splitAtRParen rest with
      | none =>
        rw [hasRParen]
        simp [hc, ih hs]
      | some p => rw [hs] at h; simp at h

theorem splitAtRParen_eq_none {l : List Char} (h : hasRParen l = false) :
    splitAtRParen l = Option.none := by
  induction l with
  | nil => rfl
  | cons c rest ih =>
    rw [hasRParen] at h
    simp only [Bool.or_eq_false_iff, decide_eq_false_iff_not] at h
    rw [splitAtRParen, if_neg h.1, ih h.2]
    rfl

theorem noPM_of_no_rparen {l : List Char} (h : hasRParen l = false) :
    noPM l = true := by
  induction l with
  | nil => rfl
  | cons c rest ih =>
    rw [hasRParen] at h
    simp only [Bool.or_eq_false_iff, decide_eq_false_iff_not] at h
    rw [noPM, ih h.2, h.2]
    simp

theorem removeParens_id {l : List Char} (h : noPM l = true) : removeParens l = l := by
  induction l with
  | nil => rfl
  | cons c rest ih =>
    rw [noPM] at h
    simp only [Bool.and_eq_true] at h
    rw [removeParens_cons]
    by_cases hc : c = '('
    · rw [if_pos hc]
      rw [if_pos hc] at h
      have hrp : hasRParen rest = false := by
        rcases h with ⟨h1, _⟩
        simpa using h1
      rw [splitAtRParen_eq_none hrp]
    · rw [if_neg hc, ih h.2]

theorem noPM_removeParens (l : List Char) : noPM (removeParens l) = true := by
  have main : ∀ (n : Nat) (l : List Char), l.length ≤ n → noPM (removeParens l) = true := by
    intro n
    induction n with
    | zero =>
      intro l hl
      have : l = [] := List.length_eq_zero.mp (Nat.le_zero.mp hl)
      subst this
      rfl
    | succ n ih =>
      intro l hl
      cases l with
      | nil => rfl
      | cons c rest =>
        rw [removeParens_cons]
        by_cases hc : c = '('
        · rw [if_pos hc]
          cases hs : splitAtRParen rest with
          | none =>
            have hrp := splitAtRParen_none hs
            rw [noPM, if_pos hc, hrp, noPM_of_no_rparen hrp]
            simp
          | some p =>
            have hlen := splitAtRParen_length (a := p.1) (b := p.2) (by rw [hs])
            have : rest.length ≤ n := by simp [List.length_cons] at hl; omega
            exact ih p.2 (by omega)
        · rw [if_neg hc]
          rw [noPM, if_neg hc]
          have : rest.length ≤ n := by simp [List.length_cons] at hl; omega
          rw [ih rest this]
          simp
  exact main l.length l (le_refl _)

/-!
### The parenthesis structure seen through `filter isParen`
-/

theorem hasRParen_filter (l : List Char) :
    hasRParen (l.filter isParen) = hasRParen l := by
  induction l with
  | nil => rfl
  | cons c rest ih =>
    rw [List.filter_cons]
    by_cases hp : isParen c = true
    · rw [if_pos hp, hasRParen, hasRParen, ih]
    · have hc : c ≠ ')' := by
        intro hcc
        subst hcc
        simp [isParen] at hp
      rw [if_neg (by simp [hp]), hasRParen, ih]
      simp [hc]

theorem noPM_filter (l : List Char) : noPM (l.filter isParen) = noPM l := by
  induction l with
  | nil => rfl
  | cons c rest ih =>
    rw [List.filter_cons]
    by_cases hp : isParen c = true
    · rw [if_pos hp, noPM, noPM, ih, hasRParen_filter]
    · have hc : c ≠ '(' := by
        intro hcc
        subst hcc
        simp [isParen] at hp
      rw [if_neg (by simp [hp]), noPM, if_neg hc, ih]
      simp

theorem pyLower_eq_self_of_paren {c : Char} (h : isParen c = true) : pyLower c = c := by
  apply pyLower_eq_self
  have := isParen_iff.mp h
  rw [Bool.eq_false_iff]
  intro hu
  have := isAsciiUpper_iff.mp hu
  omega

theorem filter_paren_map_pyLower (l : List Char) :
    (l.map pyLower).filter isParen = l.filter isParen := by
  induction l with
  | nil => rfl
  | cons c rest ih =>
    rw [List.map_cons, List.filter_cons, List.filter_cons, isParen_pyLower]
    by_cases hp : isParen c = true
    · rw [if_pos hp, if_pos hp, ih, pyLower_eq_self_of_paren hp]
    · rw [if_neg hp, if_neg hp, ih]

theorem filter_paren_ampAux (prev : Option Char) (l : List Char) :
    (ampAux prev l).filter isParen = l.filter isParen := by
  induction l generalizing prev with
  | nil => rfl
  | cons c rest ih =>
    rw [ampAux]
    by_cases hc : (c = '&' && wordBefore prev && wordAfter rest) = true
    · rw [if_pos hc]
      have hamp : c = '&' := by
        simp only [Bool.and_eq_true, decide_eq_true_eq] at hc
        exact hc.1.1
      subst hamp
      rw [List.filter_cons, List.filter_cons, List.filter_cons, List.filter_cons,
        List.filter_cons, List.filter_cons]
      norm_num [isParen]
      exact ih _
    · rw [if_neg hc]
      rw [List.filter_cons, List.filter_cons]
      by_cases hp : isParen c = true
      · rw [if_pos hp, if_pos hp, ih]
      · rw [if_neg hp, if_neg hp, ih]

theorem filter_paren_amp (l : List Char) :
    (amp l).filter isParen = l.filter isParen := filter_paren_ampAux Option.none l

theorem filter_paren_cjAux (sep : Char) (hsep : isParen sep = false) (l : List Char) :
    ((cjAux sep l).1).filter isParen = l.filter isParen := by
  induction l with
  | nil => rfl
  | cons d rest ih =>
    rw [cjAux]
    rcases hst : cjAux sep rest with ⟨out, st⟩
    rw [hst] at ih
    by_cases hws : pyIsSpace d = true
    · have hdp : isParen d = false := isParen_of_pyIsSpace hws
      have hout : (cjStep sep d (out, st)).1 = out := by
        cases st <;> simp [cjStep, hws]
      rw [hout, List.filter_cons, if_neg (by simp [hdp]), ih]
    · cases st with
      | gap =>
        have hout : (cjStep sep d (out, CJ.gap)).1 = d :: sep :: out := by
          simp [cjStep, hws]
        have ih' : List.filter isParen out = List.filter isParen rest := ih
        rw [hout]
        simp [List.filter_cons, hsep, ih']
      | tok =>
        have hout : (cjStep sep d (out, CJ.tok)).1 = d :: out := by
          simp [cjStep, hws]
        have ih' : List.filter isParen out = List.filter isParen rest := ih
        rw [hout]
        simp [List.filter_cons, ih']
      | noTok =>
        have hout : (cjStep sep d (out, CJ.noTok)).1 = d :: out := by
          simp [cjStep, hws]
        have ih' : List.filter isParen out = List.filter isParen rest := ih
        rw [hout]
        simp [List.filter_cons, ih']

/-!
### Step 4 and three-character windows

`ampOkB l` says that no `&` in `l` has word characters immediately on
both sides, i.e. the conjunction regex has no match in `l`.
-/

/-- Window check for the first three characters. -/
def headOk (x : Char) : List Char → Bool
  | y :: z :: _ => !(y = '&' && isWordChar x && isWordChar z)
  | _ => true

/-- No `&` inside the list has word characters immediately on both sides. -/
def ampOkB : List Char → Bool
  | x :: y :: z :: rest =>
    (!(y = '&' && isWordChar x && isWordChar z)) && ampOkB (y :: z :: rest)
  | _ => true

theorem ampOkB_cons (x : Char) (l : List Char) :
    ampOkB (x :: l) = (headOk x l && ampOkB l) := by
  cases l with
  | nil => rfl
  | cons y t =>
    cases t with
    | nil => rfl
    | cons z t2 => rfl

theorem ampOkB_tail {x : Char} {l : List Char} (h : ampOkB (x :: l) = true) :
    ampOkB l = true := by
  rw [ampOkB_cons] at h
  simp only [Bool.and_eq_true] at h
  exact h.2

theorem headOk_of_not_word {x : Char} {l : List Char} (h : isWordChar x = false) :
    headOk x l = true := by
  cases l with
  | nil => rfl
  | cons y t =>
    cases t with
    | nil => rfl
    | cons z t2 => simp [headOk, h]

theorem headOk_of_mid_not_amp {x y : Char} {t : List Char} (h : y ≠ '&') :
    headOk x (y :: t) = true := by
  cases t with
  | nil => rfl
  | cons z t2 => simp [headOk, h]

theorem headOk_of_third_not_word {x y z : Char} {t : List Char}
    (h : isWordChar z = false) : headOk x (y :: z :: t) = true := by
  simp [headOk, h]

/-- The substitution leaves no `&` with word characters on both sides:
remaining ampersands kept a non-word neighbour (possibly a space coming
from a replacement to their left). -/
theorem ampOkB_ampAux :
    ∀ (l : List Char) (prev : Option Char), ampOkB (ampAux prev l) = true := by
  intro l
  induction l with
  | nil => intro prev; rfl
  | cons c rest ih =>
    intro prev
    rw [ampAux]
    by_cases hcond : (c = '&' && wordBefore prev && wordAfter rest) = true
    · rw [if_pos hcond]
      have h5 : ampOkB (ampAux (Option.some c) rest) = true := ih _
      have h4 : ampOkB (' ' :: ampAux (Option.some c) rest) = true := by
        rw [ampOkB_cons, headOk_of_not_word (by decide), h5]; rfl
      have h3 : ampOkB ('d' :: ' ' :: ampAux (Option.some c) rest) = true := by
        rw [ampOkB_cons, headOk_of_mid_not_amp (by decide), h4]; rfl
      have h2 : ampOkB ('n' :: 'd' :: ' ' :: ampAux (Option.some c) rest) = true := by
        rw [ampOkB_cons, headOk_of_mid_not_amp (by decide), h3]; rfl
      have h1 : ampOkB ('a' :: 'n' :: 'd' :: ' ' :: ampAux (Option.some c) rest) = true := by
        rw [ampOkB_cons, headOk_of_mid_not_amp (by decide), h2]; rfl
      rw [ampOkB_cons, headOk_of_mid_not_amp (by decide), h1]; rfl
    · rw [if_neg hcond]
      rw [ampOkB_cons, ih (Option.some c), Bool.and_true]
      cases rest with
      | nil => rfl
      | cons r rest2 =>
        rw [ampAux]
        by_cases hr : (r = '&' && wordBefore (Option.some c) && wordAfter rest2) = true
        · rw [if_pos hr]
          exact headOk_of_mid_not_amp (by decide)
        · rw [if_neg hr]
          by_cases hramp : r = '&'
          · subst hramp
            by_cases hcw : isWordChar c = true
            · have hwa : wordAfter rest2 = false := by
                rcases hb : wordAfter rest2 with _ | _
                · rfl
                · exfalso
                  apply hr
                  simp [wordBefore, hcw, hb]
              cases rest2 with
              | nil => rfl
              | cons s rest3 =>
                have hsw : isWordChar s = false := by simpa [wordAfter] using hwa
                rw [ampAux, if_neg (by simp [wordBefore, isWordChar, isAsciiLower,
                  isAsciiUpper, isAsciiDigit])]
                exact headOk_of_third_not_word hsw
            · exact headOk_of_not_word (by simpa using hcw)
          · exact headOk_of_mid_not_amp hramp

/-- Prepend an optional character. -/
def consOpt : Option Char → List Char → List Char
  | Option.none, l => l
  | Option.some c, l => c :: l

/-- The substitution is the identity when its scan can find no match,
taking the remembered previous character into account. -/
theorem ampAux_id :
    ∀ (l : List Char) (prev : Option Char),
      ampOkB (consOpt prev l) = true → ampAux prev l = l := by
  intro l
  induction l with
  | nil => intro prev _; rfl
  | cons c rest ih =>
    intro prev h
    have htail : ampOkB (c :: rest) = true := by
      cases prev with
      | none => exact h
      | some p => exact ampOkB_tail h
    have hcond : (c = '&' && wordBefore prev && wordAfter rest) = false := by
      cases prev with
      | none => simp [wordBefore]
      | some p =>
        rcases hb : (c = '&' && wordBefore (Option.some p) && wordAfter rest) with _ | _
        · rfl
        · simp only [Bool.and_eq_true, decide_eq_true_eq] at hb
          obtain ⟨⟨hc, hp⟩, ha⟩ := hb
          subst hc
          cases rest with
          | nil => simp [wordAfter] at ha
          | cons r rest2 =>
            have hrw : isWordChar r = true := by simpa [wordAfter] using ha
            have hpw : isWordChar p = true := by simpa [wordBefore] using hp
            have h2 : ampOkB (p :: '&' :: r :: rest2) = true := h
            rw [ampOkB_cons] at h2
            simp only [Bool.and_eq_true] at h2
            have hh := h2.1
            simp [headOk, hpw, hrw] at hh
    rw [ampAux, hcond]
    simp only [Bool.false_eq_true, if_false, List.cons.injEq, true_and]
    exact ih (Option.some c) htail

theorem amp_id {l : List Char} (h : ampOkB l = true) : amp l = l :=
  ampAux_id l Option.none h

theorem headOk_map_pyLower (x : Char) (l : List Char) :
    headOk (pyLower x) (l.map pyLower) = headOk x l := by
  cases l with
  | nil => rfl
  | cons y t =>
    cases t with
    | nil => rfl
    | cons z t2 =>
      simp only [List.map_cons, headOk]
      rw [isWordChar_pyLower, isWordChar_pyLower]
      have hy : decide (pyLower y = '&') = decide (y = '&') :=
        decide_eq_decide.mpr pyLower_eq_amp_iff
      rw [hy]

theorem ampOkB_map_pyLower (l : List Char) :
    ampOkB (l.map pyLower) = ampOkB l := by
  induction l with
  | nil => rfl
  | cons x t ih =>
    rw [List.map_cons, ampOkB_cons, ampOkB_cons, ih, headOk_map_pyLower]

/-- Tail relation between the collapse output and its input used for the
window checks: the output tail is empty, starts with the separator, or
starts with the same character as the input tail. -/
def secRel (sep : Char) (rest out2 : List Char) : Prop :=
  out2 = [] ∨ (∃ t, out2 = sep :: t) ∨
    (∃ r2 rest2 t, rest = r2 :: rest2 ∧ out2 = r2 :: t)

/-- Collapsing whitespace preserves the absence of `&`-with-word-neighbour
windows, because two non-whitespace characters are adjacent in the
output only if they were adjacent in the input or a separator sits
between them. -/
theorem cjAux_ampOkB (sep : Char) (hw : isWordChar sep = false) (hamp : sep ≠ '&') :
    ∀ l : List Char, ampOkB l = true →
      ampOkB (cjAux sep l).1 = true ∧
      ((cjAux sep l).2 = CJ.noTok → (cjAux sep l).1 = []) ∧
      ((cjAux sep l).2 = CJ.tok →
        ∃ c rest out2, l = c :: rest ∧ (cjAux sep l).1 = c :: out2 ∧
          pyIsSpace c = false ∧ secRel sep rest out2) := by
  intro l
  induction l with
  | nil =>
    intro _
    refine ⟨rfl, fun _ => rfl, fun hst => by simp [cjAux] at hst⟩
  | cons d rest ih =>
    intro h
    have hrest : ampOkB rest = true := ampOkB_tail h
    obtain ⟨ih1, ih2, ih3⟩ := ih hrest
    rcases hst : cjAux sep rest with ⟨out, st⟩
    rw [hst] at ih1 ih2 ih3
    dsimp only at ih1 ih2 ih3
    have hcj : cjAux sep (d :: rest) = cjStep sep d (out, st) := by
      rw [cjAux, hst]
    rw [hcj]
    by_cases hws : pyIsSpace d = true
    · cases st with
      | noTok =>
        have hout : out = [] := ih2 rfl
        refine ⟨?_, ?_, ?_⟩
        · simp [cjStep, hws, hout]
          rfl
        · intro _; simp [cjStep, hws, hout]
        · intro hcc; simp [cjStep, hws] at hcc
      | tok =>
        refine ⟨?_, ?_, ?_⟩
        · simpa [cjStep, hws] using ih1
        · intro hcc; simp [cjStep, hws] at hcc
        · intro hcc; simp [cjStep, hws] at hcc
      | gap =>
        refine ⟨?_, ?_, ?_⟩
        · simpa [cjStep, hws] using ih1
        · intro hcc; simp [cjStep, hws] at hcc
        · intro hcc; simp [cjStep, hws] at hcc
    · have hws' : pyIsSpace d = false := by simpa using hws
      cases st with
      | noTok =>
        have hout : out = [] := ih2 rfl
        have hres : (cjStep sep d (out, CJ.noTok)).1 = [d] := by
          simp [cjStep, hws, hout]
        refine ⟨?_, ?_, ?_⟩
        · rw [hres]; rfl
        · intro hcc; simp [cjStep, hws] at hcc
        · intro _
          exact ⟨d, rest, [], rfl, hres, hws', Or.inl rfl⟩
      | gap =>
        have hres : (cjStep sep d (out, CJ.gap)).1 = d :: sep :: out := by
          simp [cjStep, hws]
        refine ⟨?_, ?_, ?_⟩
        · have h1 : ampOkB (sep :: out) = true := by
            rw [ampOkB_cons, headOk_of_not_word hw, ih1]; rfl
          rw [hres, ampOkB_cons, headOk_of_mid_not_amp hamp, h1]; rfl
        · intro hcc; simp [cjStep, hws] at hcc
        · intro _
          exact ⟨d, rest, sep :: out, rfl, hres, hws', Or.inr (Or.inl ⟨out, rfl⟩)⟩
      | tok =>
        obtain ⟨c2, rest2, out2, hrest2, hout2, hc2ws, hsec⟩ := ih3 rfl
        have hres : (cjStep sep d (out, CJ.tok)).1 = d :: out := by
          simp [cjStep, hws]
        refine ⟨?_, ?_, ?_⟩
        · rw [hres, ampOkB_cons, ih1, Bool.and_true, hout2]
          rcases hsec with h0 | ⟨t, ht⟩ | ⟨r2, rest3, t, hr, ho⟩
          · subst h0; rfl
          · subst ht
            exact headOk_of_third_not_word hw
          · subst ho
            subst hrest2
            subst hr
            rw [ampOkB_cons] at h
            simp only [Bool.and_eq_true] at h
            simpa [headOk] using h.1
        · intro hcc; simp [cjStep, hws] at hcc
        · intro _
          refine ⟨d, rest, out, rfl, hres, hws', ?_⟩
          exact Or.inr (Or.inr ⟨c2, rest2, out2, hrest2, hout2⟩)

/-!
### Collapse bookkeeping
-/

/-- Collapsing a collapsed string re-reads a former gap as a fresh token
start; `noTok` is the only state that survives unchanged. -/
def stM : CJ → CJ
  | CJ.noTok => CJ.noTok
  | _ => CJ.tok

theorem cjAux_noTok_nil {sep : Char} :
    ∀ {l : List Char}, (cjAux sep l).2 = CJ.noTok → (cjAux sep l).1 = [] := by
  intro l
  induction l with
  | nil => intro _; rfl
  | cons c rest ih =>
    intro h
    rcases hst : cjAux sep rest with ⟨out, st⟩
    have hcj : cjAux sep (c :: rest) = cjStep sep c (out, st) := by
      rw [cjAux, hst]
    rw [hcj] at h ⊢
    by_cases hws : pyIsSpace c = true
    · cases st with
      | noTok =>
        have hout : out = [] := by
          have := ih (by rw [hst])
          rw [hst] at this
          exact this
        simp [cjStep, hws, hout]
      | tok => simp [cjStep, hws] at h
      | gap => simp [cjStep, hws] at h
    · cases st <;> simp [cjStep, hws] at h

theorem cjAux_state (a b : Char) :
    ∀ l : List Char, (cjAux a l).2 = (cjAux b l).2 := by
  intro l
  induction l with
  | nil => rfl
  | cons c rest ih =>
    rcases h1 : cjAux a rest with ⟨o1, s1⟩
    rcases h2 : cjAux b rest with ⟨o2, s2⟩
    have hs : s1 = s2 := by
      rw [h1, h2] at ih
      exact ih
    subst hs
    have e1 : cjAux a (c :: rest) = cjStep a c (o1, s1) := by rw [cjAux, h1]
    have e2 : cjAux b (c :: rest) = cjStep b c (o2, s1) := by rw [cjAux, h2]
    rw [e1, e2]
    by_cases hws : pyIsSpace c = true
    · cases s1 <;> simp [cjStep, hws]
    · cases s1 <;> simp [cjStep, hws]

/-- Renaming the separator commutes with the step-1 substitution when the
collapsed string itself has no delimiter character. -/
theorem subDelims_cjAux :
    ∀ (l : List Char), (∀ c ∈ l, isDelim c = false) →
      subDelims ((cjAux '_' l).1) = (cjAux ' ' l).1 := by
  intro l
  induction l with
  | nil => intro _; rfl
  | cons c rest ih =>
    intro h
    have hc : isDelim c = false := h c (by simp)
    have hrest : ∀ x ∈ rest, isDelim x = false := fun x hx => h x (by simp [hx])
    rcases h1 : cjAux '_' rest with ⟨o1, s1⟩
    rcases h2 : cjAux ' ' rest with ⟨o2, s2⟩
    have hs : s1 = s2 := by
      have := cjAux_state '_' ' ' rest
      rw [h1, h2] at this
      exact this
    subst hs
    have iho : subDelims o1 = o2 := by
      have := ih hrest
      rw [h1, h2] at this
      exact this
    have e1 : cjAux '_' (c :: rest) = cjStep '_' c (o1, s1) := by rw [cjAux, h1]
    have e2 : cjAux ' ' (c :: rest) = cjStep ' ' c (o2, s1) := by rw [cjAux, h2]
    rw [e1, e2]
    by_cases hws : pyIsSpace c = true
    · cases s1 <;> simp [cjStep, hws, iho]
    · have hsub1 : subDelims (c :: o1) = c :: o2 := by
        rw [subDelims_cons, hc]
        simp [iho]
      have hsub2 : subDelims (c :: '_' :: o1) = c :: ' ' :: o2 := by
        rw [subDelims_cons, subDelims_cons, hc]
        simp [isDelim, iho]
      cases s1 with
      | noTok =>
        have r1 : (cjStep '_' c (o1, CJ.noTok)).1 = c :: o1 := by simp [cjStep, hws]
        have r2 : (cjStep ' ' c (o2, CJ.noTok)).1 = c :: o2 := by simp [cjStep, hws]
        rw [r1, r2]
        exact hsub1
      | tok =>
        have r1 : (cjStep '_' c (o1, CJ.tok)).1 = c :: o1 := by simp [cjStep, hws]
        have r2 : (cjStep ' ' c (o2, CJ.tok)).1 = c :: o2 := by simp [cjStep, hws]
        rw [r1, r2]
        exact hsub1
      | gap =>
        have r1 : (cjStep '_' c (o1, CJ.gap)).1 = c :: '_' :: o1 := by simp [cjStep, hws]
        have r2 : (cjStep ' ' c (o2, CJ.gap)).1 = c :: ' ' :: o2 := by simp [cjStep, hws]
        rw [r1, r2]
        exact hsub2

/-- Collapsing an already-collapsed string changes nothing except the
separator spelling: with the same final separator it is the identity. -/
theorem cjAux_collapse (sep2 : Char) :
    ∀ l : List Char,
      cjAux sep2 ((cjAux ' ' l).1) = ((cjAux sep2 l).1, stM (cjAux ' ' l).2) := by
  intro l
  induction l with
  | nil => rfl
  | cons c rest ih =>
    rcases h1 : cjAux ' ' rest with ⟨out1, st1⟩
    rcases h2 : cjAux sep2 rest with ⟨out2, st2⟩
    have hs : st2 = st1 := by
      have := cjAux_state sep2 ' ' rest
      rw [h1, h2] at this
      exact this
    subst hs
    have ihe : cjAux sep2 out1 = (out2, stM st2) := by
      rw [h1, h2] at ih
      exact ih
    have e1 : cjAux ' ' (c :: rest) = cjStep ' ' c (out1, st2) := by rw [cjAux, h1]
    have e2 : cjAux sep2 (c :: rest) = cjStep sep2 c (out2, st2) := by rw [cjAux, h2]
    rw [e1, e2]
    by_cases hws : pyIsSpace c = true
    · cases st2 with
      | noTok =>
        have hnil1 : out1 = [] := by
          have := @cjAux_noTok_nil ' ' rest (by rw [h1])
          rw [h1] at this
          exact this
        have hnil2 : out2 = [] := by
          have := @cjAux_noTok_nil sep2 rest (by rw [h2])
          rw [h2] at this
          exact this
        simp [cjStep, hws, hnil1, hnil2, cjAux, stM]
      | tok =>
        simp only [cjStep, hws, if_pos]
        simpa [stM] using ihe
      | gap =>
        simp only [cjStep, hws, if_pos]
        simpa [stM] using ihe
    · cases st2 with
      | noTok =>
        have hnil1 : out1 = [] := by
          have := @cjAux_noTok_nil ' ' rest (by rw [h1])
          rw [h1] at this
          exact this
        have hnil2 : out2 = [] := by
          have := @cjAux_noTok_nil sep2 rest (by rw [h2])
          rw [h2] at this
          exact this
        simp [cjStep, hws, hnil1, hnil2, cjAux, stM]
      | tok =>
        have hsp : pyIsSpace ' ' = true := rfl
        simp [cjStep, hws, cjAux, ihe, stM, hsp]
      | gap =>
        have hsp : pyIsSpace ' ' = true := rfl
        simp [cjStep, hws, cjAux, ihe, stM, hsp]

/-!
### Idempotence of the normalizer
-/

theorem map_pyLower_id {l : List Char} (h : ∀ c ∈ l, pyLower c = c) :
    l.map pyLower = l := by
  induction l with
  | nil => rfl
  | cons c rest ih =>
    rw [List.map_cons, h c (by simp), ih (fun x hx => h x (by simp [hx]))]

/-- The normalized output of one pass: characters of the second pass's
intermediate strings. -/
theorem normalizeChars_idem (l : List Char) :
    normalizeChars (normalizeChars l) = normalizeChars l := by
  classical
  -- names for the pass-1 intermediates
  set v1 := subDelims l with hv1
  set v2 := camel v1 with hv2
  set v3 := removeParens v2 with hv3
  set v4 := amp v3 with hv4
  set v5 := v4.map pyLower with hv5
  have hu : normalizeChars l = (cjAux '_' v5).1 := rfl
  -- character-class facts about v5
  have hv5delim : ∀ c ∈ v5, isDelim c = false := by
    intro c hc
    rw [hv5] at hc
    obtain ⟨d, hd, hdc⟩ := List.mem_map.mp hc
    rw [← hdc, isDelim_pyLower]
    rcases mem_ampAux (by rw [hv4] at hd; exact hd) with hd3 | hsp | ha | hn | hdd
    · rcases mem_camel (mem_removeParens (by rw [hv3] at hd3; exact hd3)) with hsp | hd1
      · rw [hsp]; rfl
      · exact noDelim_subDelims (by rw [hv1] at hd1; exact hd1)
    · rw [hsp]; rfl
    · rw [ha]; rfl
    · rw [hn]; rfl
    · rw [hdd]; rfl
  have hv5upper : ∀ c ∈ v5, isAsciiUpper c = false := by
    intro c hc
    rw [hv5] at hc
    obtain ⟨d, _, hdc⟩ := List.mem_map.mp hc
    rw [← hdc]
    exact isAsciiUpper_pyLower d
  have hv5lower : ∀ c ∈ v5, pyLower c = c := by
    intro c hc
    rw [hv5] at hc
    obtain ⟨d, _, hdc⟩ := List.mem_map.mp hc
    rw [← hdc]
    exact pyLower_idem d
  have hv5amp : ampOkB v5 = true := by
    rw [hv5, ampOkB_map_pyLower, hv4]
    exact ampOkB_ampAux v3 Option.none
  have hv5paren : noPM v5 = true := by
    rw [← noPM_filter, hv5, filter_paren_map_pyLower, hv4, filter_paren_amp,
      noPM_filter, hv3]
    exact noPM_removeParens v2
  -- the pass-2 intermediate string
  set u1 := (cjAux ' ' v5).1 with hu1
  have hu1mem : ∀ c ∈ u1, c = ' ' ∨ c ∈ v5 := by
    intro c hc
    rcases mem_cjAux (by rw [← hu1]; exact hc) with h | h
    · exact Or.inl h
    · exact Or.inr h.1
  -- pass 2, step by step
  have s1 : subDelims (normalizeChars l) = u1 := by
    rw [hu, hu1]
    exact subDelims_cjAux v5 hv5delim
  have s2 : camel u1 = u1 := by
    apply camel_id
    intro c hc
    rcases hu1mem c hc with h | h
    · rw [h]; rfl
    · exact hv5upper c h
  have s3 : removeParens u1 = u1 := by
    apply removeParens_id
    rw [← noPM_filter, hu1, filter_paren_cjAux ' ' (by rfl) v5, noPM_filter]
    exact hv5paren
  have s4 : amp u1 = u1 := by
    apply amp_id
    rw [hu1]
    exact (cjAux_ampOkB ' ' (by rfl) (by decide) v5 hv5amp).1
  have s5 : u1.map pyLower = u1 := by
    apply map_pyLower_id
    intro c hc
    rcases hu1mem c hc with h | h
    · rw [h]; rfl
    · exact hv5lower c h
  have s6 : (cjAux '_' u1).1 = (cjAux '_' v5).1 := by
    rw [hu1]
    rw [cjAux_collapse '_' v5]
  show pyCollapse '_' ((amp (removeParens (camel (subDelims (normalizeChars l))))).map pyLower)
      = normalizeChars l
  rw [s1, s2, s3, s4, s5, hu]
  exact s6

/-- Characters of the restricted input alphabet: ASCII letters, digits,
space, and the three delimiters (underscore, hyphen, slash). -/
def isAllowedInput (c : Char) : Bool :=
  isAsciiLower c || isAsciiUpper c || isAsciiDigit c || c = ' ' || isDelim c

/-- Lowercase letter, digit, or underscore. -/
def isLduChar (c : Char) : Bool := isAsciiLower c || isAsciiDigit c || c = '_'

theorem isLdu_pyLower_of_allowed {d : Char} (h : isAllowedInput d = true)
    (hd : isDelim d = false) (hs : pyIsSpace (pyLower d) = false) :
    isLduChar (pyLower d) = true := by
  unfold isAllowedInput at h
  simp only [Bool.or_eq_true, decide_eq_true_eq] at h
  rcases h with (((hl | hu) | hdig) | hsp) | hdel
  · have hnu : isAsciiUpper d = false := by
      rw [Bool.eq_false_iff]
      intro hu
      have := isAsciiUpper_iff.mp hu
      have := isAsciiLower_iff.mp hl
      omega
    rw [pyLower_eq_self hnu]
    unfold isLduChar
    rw [hl]
    rfl
  · have ht := pyLower_toNat_of_upper hu
    have hb := isAsciiUpper_iff.mp hu
    unfold isLduChar
    rw [isAsciiLower_iff.mpr (by omega)]
    rfl
  · have hnu : isAsciiUpper d = false := by
      rw [Bool.eq_false_iff]
      intro hu
      have := isAsciiUpper_iff.mp hu
      have := isAsciiDigit_iff.mp hdig
      omega
    rw [pyLower_eq_self hnu]
    unfold isLduChar
    rw [hdig]
    simp
  · subst hsp
    simp [pyLower, isAsciiUpper] at hs
    simp [pyIsSpace] at hs
  · rw [hdel] at hd
    simp at hd

/-- **C5**: key normalization is idempotent: for every string `s`,
`normalize_text (normalize_text s) = normalize_text s`
(`SchemaHandler.normalize_text`, `schema_handler.py` lines 465-493). -/
theorem normalize_text_idempotent (s : String) :
    normalize_text (normalize_text s) = normalize_text s :=
  congrArg String.mk (normalizeChars_idem s.data)

/-- **C6, counterexample**: it is not true that for every input string the
output of `normalize_text` contains only lowercase letters, digits and
underscores: punctuation passes through unchanged, e.g.
`normalize_text "!" = "!"`. -/
theorem normalize_output_counterexample :
    ¬ (∀ s : String, ∀ c ∈ (normalize_text s).data, isLduChar c = true) := by
  intro h
  have := h "!" '!' (by decide)
  simp [isLduChar, isAsciiLower, isAsciiDigit] at this

/-- **C6, amended**: `normalize_text` always produces an output (it is a
total function), the empty string maps to the empty string, and for
every input drawn from ASCII letters, digits, spaces, underscores,
hyphens and slashes, the output contains only lowercase letters, digits
and underscore characters.  (For general inputs, characters outside
this alphabet pass through the pipeline unchanged.) -/
theorem normalize_output_charset :
    normalize_text "" = "" ∧
    ∀ s : String, (∀ c ∈ s.data, isAllowedInput c = true) →
      ∀ c ∈ (normalize_text s).data, isLduChar c = true := by
  constructor
  · rfl
  · intro s hall c hc
    have hc' : c ∈ normalizeChars s.data := hc
    unfold normalizeChars at hc'
    rcases mem_cjAux hc' with h | ⟨hmem, hws⟩
    · subst h; rfl
    · obtain ⟨d, hd, hdc⟩ := List.mem_map.mp hmem
      subst hdc
      rcases mem_ampAux hd with hd3 | hsp | ha | hn | hdd
      · rcases mem_camel (mem_removeParens hd3) with hsp | hd1
        · subst hsp
          simp [pyLower, isAsciiUpper] at hws
          simp [pyIsSpace] at hws
        · rcases mem_subDelims hd1 with hsp | ⟨hmem1, hdel⟩
          · subst hsp
            simp [pyLower, isAsciiUpper] at hws
            simp [pyIsSpace] at hws
          · exact isLdu_pyLower_of_allowed (hall d hmem1) hdel hws
      · subst hsp
        simp [pyLower, isAsciiUpper] at hws
        simp [pyIsSpace] at hws
      · subst ha; rfl
      · subst hn; rfl
      · subst hdd; rfl

/-- **C6, witness**: the restricted-alphabet part of the amended claim at
a concrete input. -/
theorem normalize_output_charset_witness :
    ∀ c ∈ (normalize_text "Hello World-Example/Id_7").data, isLduChar c = true :=
  normalize_output_charset.2 "Hello World-Example/Id_7" (by decide)

example : normalize_text "Hello World-Example/Id_7" = "hello_world_example_id_7" := by decide

example : normalize_text "Key A" = "key_a" := by decide
example : normalize_text "CamelCase" = "camel_case" := by decide
example : normalize_text "rock & roll" = "rock_&_roll" := by decide
example : normalize_text "rock&roll" = "rock_and_roll" := by decide
example : normalize_text "name (optional)" = "name" := by decide
example : normalize_text "" = "" := by decide
example : normalize_text "!" = "!" := by decide


/-!
## The Python value model

JSON-ish Python runtime values.  Floats are modelled as exact fractions
(`PyFloat`), kept unreduced so that all arithmetic is kernel-computable;
Python type tokens (usable inside schemas) get their own constructor.
-/

/-- A Python float as an exact fraction with positive denominator.  The
claims never depend on binary rounding of float literals, only on exact
decimal values. -/
structure PyFloat where
  num : Int
  den : Nat
deriving DecidableEq

/-- The float denoted by an integer. -/
def PyFloat.ofInt (n : Int) : PyFloat := ⟨n, 1⟩

inductive PyType
  | str
  | int
  | float
  | bool
  | list
  | dict
  | noneT
  | typeT
deriving DecidableEq

inductive PyVal
  | str (s : String)
  | int (n : Int)
  | float (f : PyFloat)
  | bool (b : Bool)
  | list (xs : List PyVal)
  | dict (d : List (String × PyVal))
  | pytype (t : PyType)
  | none

/-!
Python dicts are insertion-ordered with unique keys; we model them as
association lists where assignment updates the first (unique) binding in
place and otherwise appends.
-/

def dGet {α : Type} : List (String × α) → String → Option α
  | [], _ => Option.none
  | (k, v) :: rest, key => if k = key then Option.some v else dGet rest key

def dMem {α : Type} (d : List (String × α)) (k : String) : Bool := (dGet d k).isSome

def dSet {α : Type} : List (String × α) → String → α → List (String × α)
  | [], k, v => [(k, v)]
  | (k0, v0) :: rest, k, v =>
    if k0 = k then (k0, v) :: rest else (k0, v0) :: dSet rest k v

/-- `dict.pop(k, None)`: removes the binding of `k` (unique in a Python dict). -/
def dPop {α : Type} (d : List (String × α)) (k : String) : List (String × α) :=
  d.filter (fun kv => kv.1 ≠ k)

/-- Build a dict from a list of pairs (later bindings overwrite earlier
ones in place, as in a Python dict comprehension). -/
def dFromList {α : Type} (items : List (String × α)) : List (String × α) :=
  items.foldl (fun d kv => dSet d kv.1 kv.2) []

/-- Python truthiness for the modelled values. -/
def pyTruthy : PyVal → Bool
  | PyVal.str s => s ≠ ""
  | PyVal.int n => n ≠ 0
  | PyVal.float f => f.num ≠ 0
  | PyVal.bool b => b
  | PyVal.list xs => !xs.isEmpty
  | PyVal.dict d => !d.isEmpty
  | PyVal.pytype _ => true
  | PyVal.none => false

/-- `type(v)` for the modelled values. -/
def typeOf : PyVal → PyType
  | PyVal.str _ => PyType.str
  | PyVal.int _ => PyType.int
  | PyVal.float _ => PyType.float
  | PyVal.bool _ => PyType.bool
  | PyVal.list _ => PyType.list
  | PyVal.dict _ => PyType.dict
  | PyVal.pytype _ => PyType.typeT
  | PyVal.none => PyType.noneT

/-- `isinstance(v, t)`; in CPython `bool` is a subclass of `int`. -/
def pyIsInstance (v : PyVal) (t : PyType) : Bool :=
  match v, t with
  | PyVal.bool _, PyType.int => true
  | _, _ => typeOf v = t

/-- `str(v)`.  Integer, boolean and `None` stringification matches
CPython; the textual form of floats and containers is not needed by any
claim and is given a simple total representative. -/
def pyStr : PyVal → String
  | PyVal.str s => s
  | PyVal.int n => toString n
  | PyVal.bool b => if b then "True" else "False"
  | PyVal.float f => toString f.num ++ "/" ++ toString f.den
  | PyVal.none => "None"
  | PyVal.list _ => "<list>"
  | PyVal.dict _ => "<dict>"
  | PyVal.pytype _ => "<type>"

/-- `s.lower()` (ASCII action, like the normalizer). -/
def pyStrLower (s : String) : String := String.mk (s.data.map pyLower)

/-!
### Numeric parsing, rounding, and words-to-number
-/

def digitsToNat : List Char → Option Nat
  | [] => Option.none
  | l =>
    if l.all (fun c => isAsciiDigit c) then
      Option.some (l.foldl (fun acc c => acc * 10 + (c.toNat - 48)) 0)
    else
      Option.none

/-- `int(s)` for decimal literals: optional surrounding whitespace,
optional sign, digits. -/
def pyIntOfString (s : String) : Option Int :=
  let l := (s.data.dropWhile pyIsSpace).reverse.dropWhile pyIsSpace |>.reverse
  match l with
  | '-' :: rest => (digitsToNat rest).map (fun n => -(n : Int))
  | '+' :: rest => (digitsToNat rest).map (fun n => (n : Int))
  | _ => (digitsToNat l).map (fun n => (n : Int))

def digitsVal (l : List Char) : Nat :=
  l.foldl (fun acc c => acc * 10 + (c.toNat - 48)) 0

/-- `float(s)` for plain decimal literals `[sign] digits [. digits]`
(scientific notation and the special values are not needed by the
claims). -/
def pyFloatOfString (s : String) : Option PyFloat :=
  let l := (s.data.dropWhile pyIsSpace).reverse.dropWhile pyIsSpace |>.reverse
  let core := fun (l : List Char) =>
    let intPart := l.takeWhile (fun c => c ≠ '.')
    let rest := l.dropWhile (fun c => c ≠ '.')
    match rest with
    | [] =>
      if intPart ≠ [] ∧ intPart.all (fun c => isAsciiDigit c) then
        Option.some (PyFloat.ofInt (digitsVal intPart))
      else Option.none
    | _ :: fracPart =>
      if (intPart ++ fracPart) ≠ [] ∧ intPart.all (fun c => isAsciiDigit c) ∧
          fracPart.all (fun c => isAsciiDigit c) then
        Option.some ⟨(digitsVal intPart : Int) * (10 ^ fracPart.length : Nat) +
          (digitsVal fracPart : Int), 10 ^ fracPart.length⟩
      else Option.none
  match l with
  | '-' :: rest => (core rest).map (fun f => ⟨-f.num, f.den⟩)
  | '+' :: rest => core rest
  | _ => core l

/-- Python `round` with one argument: round half to even. -/
def pyRound (f : PyFloat) : Int :=
  let fl := f.num.fdiv (f.den : Int)
  let rnum := f.num - fl * (f.den : Int)
  if 2 * rnum < (f.den : Int) then fl
  else if (f.den : Int) < 2 * rnum then fl + 1
  else if fl % 2 = 0 then fl else fl + 1

/-- The `word2number` word table (integer fragment; the `point` decimal
extension of the library is not exercised by the pipeline's claims). -/
def w2nWordValue : String → Option Nat
  | "zero" => Option.some 0
  | "one" => Option.some 1
  | "two" => Option.some 2
  | "three" => Option.some 3
  | "four" => Option.some 4
  | "five" => Option.some 5
  | "six" => Option.some 6
  | "seven" => Option.some 7
  | "eight" => Option.some 8
  | "nine" => Option.some 9
  | "ten" => Option.some 10
  | "eleven" => Option.some 11
  | "twelve" => Option.some 12
  | "thirteen" => Option.some 13
  | "fourteen" => Option.some 14
  | "fifteen" => Option.some 15
  | "sixteen" => Option.some 16
  | "seventeen" => Option.some 17
  | "eighteen" => Option.some 18
  | "nineteen" => Option.some 19
  | "twenty" => Option.some 20
  | "thirty" => Option.some 30
  | "forty" => Option.some 40
  | "fifty" => Option.some 50
  | "sixty" => Option.some 60
  | "seventy" => Option.some 70
  | "eighty" => Option.some 80
  | "ninety" => Option.some 90
  | "hundred" => Option.some 100
  | "thousand" => Option.some 1000
  | "million" => Option.some 1000000
  | "billion" => Option.some 1000000000
  | _ => Option.none

/-- Split a character list on whitespace into words (`str.split()`). -/
def splitWordsAux : List Char → List Char → List String
  | [], acc => if acc.isEmpty then [] else [String.mk acc.reverse]
  | c :: rest, acc =>
    if pyIsSpace c then
      (if acc.isEmpty then [] else [String.mk acc.reverse]) ++ splitWordsAux rest []
    else
      splitWordsAux rest (c :: acc)

def splitWords (l : List Char) : List String := splitWordsAux l []

/-- Accumulate number words in the usual way: units and tens add into a
chunk, `hundred` multiplies the chunk, larger scales flush it. -/
def w2nCombine : List Nat → Nat → Nat → Nat
  | [], acc, total => total + acc
  | v :: rest, acc, total =>
    if v = 100 then
      w2nCombine rest (if acc = 0 then 100 else acc * 100) total
    else if v = 1000 ∨ v = 1000000 ∨ v = 1000000000 then
      w2nCombine rest 0 (total + (if acc = 0 then 1 else acc) * v)
    else
      w2nCombine rest (acc + v) total

/-- Model of `w2n.word_to_num` (the `word2number` dependency): lower the
text, replace hyphens by spaces, split into words, keep the words that
are in the table (the library silently drops other words) and fail when
no number word remains. -/
def w2nModel (s : String) : Option Nat :=
  let cleaned := (pyStrLower s).data.map (fun c => if c = '-' then ' ' else c)
  let words := (splitWords cleaned).filterMap w2nWordValue
  match words with
  | [] => Option.none
  | _ => Option.some (w2nCombine words 0 0)

example : w2nModel "forty-two" = Option.some 42 := by decide
example : w2nModel "not a number" = Option.none := by decide
example : pyIntOfString "231" = Option.some 231 := by decide
example : pyIntOfString "forty-two" = Option.none := by decide
example : pyFloatOfString "231.4" = Option.some ⟨2314, 10⟩ := by decide
example : pyRound ⟨2317, 10⟩ = 232 := by decide
example : pyRound ⟨1, 2⟩ = 0 := by decide
example : pyRound ⟨3, 2⟩ = 2 := by decide
example : pyRound ⟨5, 2⟩ = 2 := by decide
example : pyRound ⟨-3, 2⟩ = -2 := by decide
example : pyRound ⟨2313, 10⟩ = 231 := by decide

/-!
## Reconciliation Engine: `HeuristicProcessor`
(`src/openai_json/heuristic_processor.py`)

Python exceptions become `Except PyErr`; exceptions the code catches
locally are folded into the functions that catch them.
-/

inductive PyErr
  | valueError (msg : String)
  | typeError (msg : String)
  | attributeError (msg : String)
  | schemaNotSubmitted (msg : String)
  | runtimeError (msg : String)
deriving DecidableEq

/-- `field.get(key) == s` for a string literal `s`. -/
def isStrEq : Option PyVal → String → Bool
  | Option.some (PyVal.str t), s => t = s
  | _, _ => false

/-- `python_type_reverse_mapping` (inverse of the class attribute
`python_type_mapping`, default state). -/
def pythonTypeReverseMapping (s : String) : Option PyType :=
  if s = "string" then Option.some PyType.str
  else if s = "integer" then Option.some PyType.int
  else if s = "number" then Option.some PyType.float
  else if s = "list" then Option.some PyType.list
  else if s = "boolean" then Option.some PyType.bool
  else if s = "object" then Option.some PyType.dict
  else Option.none

/-- `SchemaHandler.get_type_from_field` (`schema_handler.py` 258-304).
A `dict`-valued `type` raises `ValueError`; a missing or unrecognized
type resolves to `None`. -/
def getTypeFromField : Option PyVal → Except PyErr (Option PyType)
  | Option.some (PyVal.dict d) =>
    match dGet d "type" with
    | Option.some (PyVal.dict _) =>
      Except.error (PyErr.valueError "Invalid nested type")
    | Option.some (PyVal.str s) => Except.ok (pythonTypeReverseMapping s)
    | Option.some _ => Except.ok Option.none
    | Option.none => Except.ok Option.none
  | Option.some (PyVal.str s) => Except.ok (pythonTypeReverseMapping s)
  | _ => Except.ok Option.none

/-- The fallback `expected_type(item)` constructor call of
`_coerce_item_type` for the reachable value universe; `Option.none`
stands for the `TypeError`/`ValueError` the call would raise (which the
function catches, returning the item unchanged). -/
def pyConstructorCall (t : PyType) (item : PyVal) : Option PyVal :=
  match t, item with
  | PyType.list, PyVal.str s =>
    Option.some (PyVal.list (s.data.map (fun c => PyVal.str (String.mk [c]))))
  | PyType.list, PyVal.dict d =>
    Option.some (PyVal.list (d.map (fun kv => PyVal.str kv.1)))
  | _, _ => Option.none

/-- The shared string branch of the numeric coercions: direct parse
(`float` when the text contains a dot, else `int`), then
words-to-number; `Option.none` when both fail. -/
def coerceNumericString (s : String) (isFloat : Bool) : Option PyVal :=
  let direct :=
    if s.data.any (fun c => c = '.') then (pyFloatOfString s).map PyVal.float
    else (pyIntOfString s).map PyVal.int
  match direct with
  | Option.some v => Option.some v
  | Option.none =>
    match w2nModel s with
    | Option.some n =>
      Option.some (if isFloat then PyVal.float (PyFloat.ofInt n) else PyVal.int n)
    | Option.none => Option.none

/-- `HeuristicProcessor._coerce_item_type` (`heuristic_processor.py`
338-449).  The function catches `ValueError`/`TypeError` internally and
falls back to returning the item unchanged, so it is total.  The
`expected_type == "number"` comparison of the caller can never see the
string `"number"` (the reverse type mapping yields the `float` type),
so `expected` here is a Python type or `None`. -/
def coerceItem (item : PyVal) (expected : Option PyType) : PyVal :=
  match expected with
  | Option.none => item
  | Option.some PyType.bool =>
    match item with
    | PyVal.str s =>
      let low := pyStrLower s
      if low = "true" then PyVal.bool true
      else if low = "false" then PyVal.bool false
      else item
    | PyVal.int n => PyVal.bool (n ≠ 0)
    | PyVal.bool b => PyVal.bool b
    | _ => item
  | Option.some PyType.str => PyVal.str (pyStr item)
  | Option.some PyType.float =>
    match item with
    | PyVal.str s => (coerceNumericString s true).getD (PyVal.str s)
    | PyVal.int n => PyVal.float (PyFloat.ofInt n)
    | PyVal.bool b => PyVal.float (PyFloat.ofInt (if b then 1 else 0))
    | PyVal.float f => PyVal.float f
    | v => v
  | Option.some PyType.int =>
    match item with
    | PyVal.str s => (coerceNumericString s false).getD (PyVal.str s)
    | PyVal.float f => PyVal.int (pyRound f)
    | PyVal.int n => PyVal.int n
    | PyVal.bool b => PyVal.int (if b then 1 else 0)
    | v => v
  | Option.some t =>
    if pyIsInstance item t then item
    else (pyConstructorCall t item).getD item

/-- `utils`-style path building: `f"{path}.{key}" if path else key`. -/
def buildPath (path key : String) : String :=
  if path = "" then key else path ++ "." ++ key

/-- `schema.get("properties", {}).get(nk, schema.get(nk))`; a non-dict
`properties` value would make the inner `.get` raise. -/
def getFieldDefinition (sdict : List (String × PyVal)) (nk : String) :
    Except PyErr (Option PyVal) :=
  match dGet sdict "properties" with
  | Option.some (PyVal.dict p) =>
    match dGet p nk with
    | Option.some v => Except.ok (Option.some v)
    | Option.none => Except.ok (dGet sdict nk)
  | Option.some _ => Except.error (PyErr.attributeError "object has no attribute get")
  | Option.none => Except.ok (dGet sdict nk)

/-- `str.split(",")` (keeps empty pieces). -/
def splitOnCommaAux : List Char → List Char → List (List Char)
  | [], acc => [acc.reverse]
  | c :: rest, acc =>
    if c = ',' then acc.reverse :: splitOnCommaAux rest []
    else splitOnCommaAux rest (c :: acc)

def splitOnComma (l : List Char) : List (List Char) := splitOnCommaAux l []

/-- `str.strip()`. -/
def pyStrip (l : List Char) : List Char :=
  ((l.dropWhile pyIsSpace).reverse.dropWhile pyIsSpace).reverse

/-- `HeuristicProcessor._normalize_list_value` (197-200): a string value
for a list-typed field is split on commas and stripped.  The `.get` on
a non-dict field definition raises (only reachable for a shorthand
string definition, which normalized schemas never contain). -/
def normalizeListValue (value : PyVal) (fieldDef : PyVal) : Except PyErr PyVal :=
  match value with
  | PyVal.str s =>
    match fieldDef with
    | PyVal.dict d =>
      if isStrEq (dGet d "type") "list" then
        Except.ok (PyVal.list ((splitOnComma s.data).map
          (fun t => PyVal.str (String.mk (pyStrip t)))))
      else Except.ok (PyVal.str s)
    | _ => Except.error (PyErr.attributeError "object has no attribute get")
  | v => Except.ok v

/-- `_process_list` returns a 3-tuple on the list path but only a
2-tuple `([], [{current_path: value}])` on the not-a-list path
(`heuristic_processor.py` line 207); the caller unpacks three values,
so the 2-tuple raises `ValueError` there. -/
inductive ListResult
  | three (matched : List PyVal) (unmatched : List (String × PyVal))
      (errors : List (String × PyVal))
  | two (matched : List PyVal) (unmatched : List (String × PyVal))

mutual

/-- `HeuristicProcessor._process_nested` (48-107).  The fuel argument
only bounds the recursion depth; the entry point supplies more than the
structure can consume. -/
def processNestedF : Nat → List (String × PyVal) → PyVal → String →
    Except PyErr (List (String × PyVal) × List (String × PyVal) × List (String × PyVal))
  | 0, _, _, _ => Except.error (PyErr.runtimeError "recursion limit")
  | fuel + 1, data, schema, path =>
    match schema with
    | PyVal.dict sdict =>
      processEntries fuel (dFromList (data.map (fun kv => (normalize_text kv.1, kv.2))))
        sdict path ([], [], [])
    | _ => Except.error (PyErr.attributeError "object has no attribute get")

/-- The per-key loop of `_process_nested`, threading the three
accumulators. -/
def processEntries : Nat → List (String × PyVal) → List (String × PyVal) → String →
    (List (String × PyVal) × List (String × PyVal) × List (String × PyVal)) →
    Except PyErr (List (String × PyVal) × List (String × PyVal) × List (String × PyVal))
  | 0, _, _, _, _ => Except.error (PyErr.runtimeError "recursion limit")
  | _ + 1, [], _, _, acc => Except.ok acc
  | fuel + 1, (key, value) :: rest, sdict, path, (processed, unmatched, errors) =>
    match getFieldDefinition sdict (normalize_text key) with
    | Except.error e => Except.error e
    | Except.ok fieldDef =>
      match getTypeFromField fieldDef with
      | Except.error e => Except.error e
      | Except.ok expected =>
        let currentPath := buildPath path key
        let nk := normalize_text key
        if expected = Option.some PyType.list then
          match processList fuel value (fieldDef.getD PyVal.none) currentPath with
          | Except.error e => Except.error e
          | Except.ok (ListResult.two _ _) =>
            -- the 2-tuple from the not-a-list path fails to unpack into
            -- three variables in `_process_list_field` (line 126)
            Except.error (PyErr.valueError "not enough values to unpack (expected 3, got 2)")
          | Except.ok (ListResult.three lm lu le) =>
            processEntries fuel rest sdict path
              ((if lm.isEmpty then processed else dSet processed nk (PyVal.list lm)),
                unmatched ++ lu, errors ++ le)
        else
          match expected, value with
          | Option.some PyType.dict, PyVal.dict vdict =>
            -- _process_dict_field: nested_schema = field_definition.get("properties", field_definition)
            match fieldDef with
            | Option.some (PyVal.dict fd) =>
              let nestedSchema := (dGet fd "properties").getD (PyVal.dict fd)
              match processNestedF fuel vdict nestedSchema currentPath with
              | Except.error e => Except.error e
              | Except.ok (np, nu, ne) =>
                processEntries fuel rest sdict path
                  ((if np.isEmpty then processed else dSet processed nk (PyVal.dict np)),
                    unmatched ++ nu, errors ++ ne)
            | _ => Except.error (PyErr.attributeError "object has no attribute get")
          | Option.some t, _ =>
            -- _process_primitive_field; the coercion itself is total, so
            -- the except-branch of the Python code is unreachable
            let coerced := coerceItem value (Option.some t)
            if pyIsInstance coerced t then
              processEntries fuel rest sdict path
                (dSet processed nk coerced, unmatched, errors)
            else
              processEntries fuel rest sdict path
                (processed, unmatched, errors ++ [(currentPath, value)])
          | Option.none, PyVal.dict vdict =>
            -- _process_unexpected_field with a dict value: recurse into
            -- the same schema one level deeper and merge
            match processNestedF fuel vdict (PyVal.dict sdict) currentPath with
            | Except.error e => Except.error e
            | Except.ok (np, nu, ne) =>
              processEntries fuel rest sdict path
                (np.foldl (fun acc kv => dSet acc kv.1 kv.2) processed,
                  unmatched ++ nu, errors ++ ne)
          | Option.none, v =>
            processEntries fuel rest sdict path
              (processed, unmatched ++ [(currentPath, v)], errors)

/-- `HeuristicProcessor._process_list` (202-213). -/
def processList : Nat → PyVal → PyVal → String → Except PyErr ListResult
  | 0, _, _, _ => Except.error (PyErr.runtimeError "recursion limit")
  | fuel + 1, value, fieldDef, currentPath =>
    match normalizeListValue value fieldDef with
    | Except.error e => Except.error e
    | Except.ok (PyVal.list items) =>
      match processListItems fuel items fieldDef currentPath with
      | Except.error e => Except.error e
      | Except.ok (m, u, e) => Except.ok (ListResult.three m u e)
    | Except.ok v => Except.ok (ListResult.two [] [(currentPath, v)])

/-- `HeuristicProcessor._process_list_items` (215-319): resolve the item
type (explicit `items` definition, else inferred from the first
element) and process every element. -/
def processListItems : Nat → List PyVal → PyVal → String →
    Except PyErr (List PyVal × List (String × PyVal) × List (String × PyVal))
  | 0, _, _, _ => Except.error (PyErr.runtimeError "recursion limit")
  | fuel + 1, items, fieldDef, currentPath =>
    match fieldDef with
    | PyVal.dict d =>
      let itemsDefinition := (dGet d "items").getD (PyVal.dict [])
      match getTypeFromField (Option.some itemsDefinition) with
      | Except.error e => Except.error e
      | Except.ok expected0 =>
        let expected := match expected0, items with
          | Option.none, v0 :: _ => Option.some (typeOf v0)
          | e0, _ => e0
        itemsGo fuel items 0 expected itemsDefinition currentPath ([], [], [])
    | _ => Except.error (PyErr.attributeError "object has no attribute get")

/-- The per-element loop of `_process_list_items`; the per-item
`try/except (ValueError, TypeError)` diverts those two error kinds into
an `errors` entry for the item. -/
def itemsGo : Nat → List PyVal → Nat → Option PyType → PyVal → String →
    (List PyVal × List (String × PyVal) × List (String × PyVal)) →
    Except PyErr (List PyVal × List (String × PyVal) × List (String × PyVal))
  | 0, _, _, _, _, _, _ => Except.error (PyErr.runtimeError "recursion limit")
  | _ + 1, [], _, _, _, _, acc => Except.ok acc
  | fuel + 1, item :: rest, idx, expected, itemsDefinition, currentPath, (m, u, e) =>
    let itemPath := currentPath ++ "[" ++ toString idx ++ "]"
    match item with
    | PyVal.dict idict =>
      match processNestedF fuel idict itemsDefinition itemPath with
      | Except.ok (np, nu, ne) =>
        let m2 := if np.isEmpty then m else m ++ [PyVal.dict np]
        if nu.isEmpty then
          itemsGo fuel rest (idx + 1) expected itemsDefinition currentPath (m2, u, e ++ ne)
        else
          -- `unmatched_items.update(nested_unmatched)` with a non-empty
          -- list of one-entry dicts raises ValueError, which the
          -- per-item handler catches into an errors entry
          itemsGo fuel rest (idx + 1) expected itemsDefinition currentPath
            (m2, u, e ++ [(itemPath, item)])
      | Except.error (PyErr.valueError _) =>
        itemsGo fuel rest (idx + 1) expected itemsDefinition currentPath
          (m, u, e ++ [(itemPath, item)])
      | Except.error (PyErr.typeError _) =>
        itemsGo fuel rest (idx + 1) expected itemsDefinition currentPath
          (m, u, e ++ [(itemPath, item)])
      | Except.error err => Except.error err
    | _ =>
      match expected with
      | Option.none =>
        -- isinstance with a None type raises TypeError, caught per item
        itemsGo fuel rest (idx + 1) expected itemsDefinition currentPath
          (m, u, e ++ [(itemPath, item)])
      | Option.some t =>
        let coerced := coerceItem item (Option.some t)
        let ok := match coerced with
          | PyVal.none => false
          | c => pyIsInstance c t
        if ok then
          itemsGo fuel rest (idx + 1) expected itemsDefinition currentPath
            (m ++ [coerced], u, e)
        else
          itemsGo fuel rest (idx + 1) expected itemsDefinition currentPath
            (m, u, e ++ [(itemPath, item)])

end

/-- Recursion budget for the fueled processors.  CPython itself aborts
recursive processing at a fixed recursion limit; the bound here is far
above anything the data model can reach in the claims. -/
def heuristicFuel : Nat := 1000000

/-- `HeuristicProcessor.process` (27-46): reads
`schema_handler.normalized_schema` and raises
`ValueError("No schema provided for processing.")` when it is falsy
(`None` or an empty dict). -/
def heuristicProcess (nschema : Option PyVal) (data : List (String × PyVal)) :
    Except PyErr (List (String × PyVal) × List (String × PyVal) × List (String × PyVal)) :=
  match nschema with
  | Option.none => Except.error (PyErr.valueError "No schema provided for processing.")
  | Option.some schema =>
    if pyTruthy schema then
      processNestedF (heuristicFuel + 1) data schema ""
    else
      Except.error (PyErr.valueError "No schema provided for processing.")

example :
    heuristicProcess
      (Option.some (PyVal.dict [("tags", PyVal.dict
        [("type", PyVal.str "list"), ("items", PyVal.dict [("type", PyVal.str "string")])])]))
      [("tags", PyVal.list [PyVal.str "a", PyVal.int 2, PyVal.str "c"])]
    = Except.ok ([("tags", PyVal.list [PyVal.str "a", PyVal.str "2", PyVal.str "c"])], [], []) := rfl

example :
    heuristicProcess
      (Option.some (PyVal.dict [("tags", PyVal.dict [("type", PyVal.str "list")])]))
      [("tags", PyVal.int 42)]
    = Except.error (PyErr.valueError "not enough values to unpack (expected 3, got 2)") := rfl

example :
    heuristicProcess
      (Option.some (PyVal.dict [("key_b", PyVal.dict
        [("type", PyVal.str "list"), ("items", PyVal.dict [("type", PyVal.str "integer")])])]))
      [("Key B", PyVal.list [PyVal.int 1, PyVal.str "2", PyVal.int 3, PyVal.str "four"])]
    = Except.ok ([("key_b", PyVal.list [PyVal.int 1, PyVal.int 2, PyVal.int 3, PyVal.int 4])], [], []) := rfl

example :
    heuristicProcess
      (Option.some (PyVal.dict [("key_a", PyVal.dict [("type", PyVal.str "integer")])]))
      [("key_a", PyVal.str "abc")]
    = Except.ok ([], [], [("key_a", PyVal.str "abc")]) := rfl

example :
    heuristicProcess
      (Option.some (PyVal.dict [("key_a", PyVal.dict [("type", PyVal.str "list")])]))
      [("Key A", PyVal.str "tag1, tag2, tag3")]
    = Except.ok ([("key_a", PyVal.list
        [PyVal.str "tag1", PyVal.str "tag2", PyVal.str "tag3"])], [], []) := rfl

example :
    heuristicProcess
      (Option.some (PyVal.dict
        [("email", PyVal.dict [("type", PyVal.str "string")])]))
      [("user", PyVal.dict [("contact", PyVal.dict [("email", PyVal.str "a@b.com")])])]
    = Except.ok ([("email", PyVal.str "a@b.com")], [], []) := rfl

/-- `SchemaHandler._ensure_schema_submitted` (`schema_handler.py` 96-107):
raises `SchemaNotSubmittedError` when `normalized_schema` is falsy.  It
is called by the schema handler's own schema-dependent operations
(`generate_example_json`, `extract_prompts`, `validate_data`,
`get_original_key`, `map_keys_to_original`, `add_field`, `diff_schema`),
but not by the processors. -/
def ensureSchemaSubmitted (nschema : Option PyVal) : Except PyErr Unit :=
  match nschema with
  | Option.none =>
    Except.error (PyErr.schemaNotSubmitted "Schema must be submitted before calling this method.")
  | Option.some s =>
    if pyTruthy s then Except.ok ()
    else Except.error (PyErr.schemaNotSubmitted "Schema must be submitted before calling this method.")

/-- The list-typed schema and non-list datum exercising
`_process_list`'s not-a-list path. -/
def c2Schema : PyVal := PyVal.dict [("tags", PyVal.dict [("type", PyVal.str "list")])]

def c2Data : List (String × PyVal) := [("tags", PyVal.int 42)]

/-- **C2, code evaluation at the failing input**: with schema
`{"tags": {"type": "list"}}` and data `{"tags": 42}` (a value that is
neither a list nor a string), `HeuristicProcessor.process` raises
`ValueError: not enough values to unpack (expected 3, got 2)`:
`_process_list` returns the 2-tuple `([], [{path: value}])`
(`heuristic_processor.py` line 207) while `_process_list_field`
(line 126) unpacks three values.  The spec says the field is recorded
as unmatched and the engine never raises for data shape. -/
theorem heuristic_list_nonlist_raises :
    heuristicProcess (Option.some c2Schema) c2Data
      = Except.error (PyErr.valueError "not enough values to unpack (expected 3, got 2)") := rfl

/-- The mixed-validity list example of the spec. -/
def c3Schema : PyVal := PyVal.dict [("tags", PyVal.dict
  [("type", PyVal.str "list"), ("items", PyVal.dict [("type", PyVal.str "string")])])]

def c3Data : List (String × PyVal) :=
  [("tags", PyVal.list [PyVal.str "a", PyVal.int 2, PyVal.str "c"])]

/-- **C3, counterexample**: for schema `{"tags": list of string}` and
input `{"tags": ["a", 2, "c"]}` the engine does NOT produce
`matched.tags == ["a", "c"]` with an error at `tags[1]`: coercion to a
string target stringifies the `2`, so the run has no error entry at
all. -/
theorem list_mixed_validity_counterexample :
    ¬ (∃ m u e, heuristicProcess (Option.some c3Schema) c3Data = Except.ok (m, u, e) ∧
        dGet m "tags" = Option.some (PyVal.list [PyVal.str "a", PyVal.str "c"]) ∧
        ("tags[1]", PyVal.int 2) ∈ e) := by
  rintro ⟨m, u, e, hrun, hm, he⟩
  have hk : (Except.ok ([("tags", PyVal.list [PyVal.str "a", PyVal.str "2", PyVal.str "c"])],
      ([] : List (String × PyVal)), ([] : List (String × PyVal)))
        : Except PyErr (List (String × PyVal) × List (String × PyVal) × List (String × PyVal)))
      = Except.ok (m, u, e) := by
    rw [← hrun]
    rfl
  simp only [Except.ok.injEq, Prod.mk.injEq] at hk
  rw [← hk.2.2] at he
  simp at he

/-- **C3, amended**: for schema `{"tags": list of string}` and input
`{"tags": ["a", 2, "c"]}`, `matched.tags == ["a", "2", "c"]` (the
integer element is coerced to the string `"2"`) and `errors` is empty;
per-element processing does continue past each element, but a
string-targeted coercion never fails, so nothing reaches `errors`. -/
theorem list_mixed_validity_amended :
    heuristicProcess (Option.some c3Schema) c3Data
      = Except.ok ([("tags", PyVal.list [PyVal.str "a", PyVal.str "2", PyVal.str "c"])], [], []) := rfl

/-- **C7**: the coercion examples of the spec, evaluated on the code:
`coerce("231", integer) == 231`; `coerce(231.7, integer) == 232` where
the float-to-integer narrowing is Python `round`, i.e. round half to
even (231.5 rounds up to 232, 230.5 rounds down to 230);
`coerce("forty-two", number) == 42` via words-to-number (the result is
the float of value 42, numerically equal to 42); and
`coerce("not a number", number)` returns the value uncoerced, which the
primitive handler then records as an error entry, not a silent drop. -/
theorem coercion_examples :
    coerceItem (PyVal.str "231") (Option.some PyType.int) = PyVal.int 231 ∧
    coerceItem (PyVal.float ⟨2317, 10⟩) (Option.some PyType.int) = PyVal.int 232 ∧
    coerceItem (PyVal.float ⟨2315, 10⟩) (Option.some PyType.int) = PyVal.int 232 ∧
    coerceItem (PyVal.float ⟨2305, 10⟩) (Option.some PyType.int) = PyVal.int 230 ∧
    coerceItem (PyVal.str "forty-two") (Option.some PyType.float) = PyVal.float ⟨42, 1⟩ ∧
    coerceItem (PyVal.str "not a number") (Option.some PyType.float) = PyVal.str "not a number" ∧
    heuristicProcess
        (Option.some (PyVal.dict [("n", PyVal.dict [("type", PyVal.str "number")])]))
        [("n", PyVal.str "not a number")]
      = Except.ok ([], [], [("n", PyVal.str "not a number")]) :=
  ⟨rfl, rfl, rfl, rfl, rfl, rfl, rfl⟩

/-- **C10**: coercion to a string target is total: for every value of
any type, coercing against expected type string returns the
stringification, so a schema field of type string is always placed in
`matched` and contributes no entry to `errors` or `unmatched`. -/
theorem string_coercion_total (v : PyVal) :
    coerceItem v (Option.some PyType.str) = PyVal.str (pyStr v) ∧
    heuristicProcess
        (Option.some (PyVal.dict [("f", PyVal.dict [("type", PyVal.str "string")])]))
        [("f", v)]
      = Except.ok ([("f", PyVal.str (pyStr v))], [], []) := by
  constructor
  · cases v <;> rfl
  · cases v <;> rfl

/-- **C8, counterexample**: `HeuristicProcessor.process` with no schema
present raises `ValueError("No schema provided for processing.")`
(`heuristic_processor.py` 40-42), not `SchemaNotSubmittedError`. -/
theorem process_no_schema_counterexample :
    heuristicProcess Option.none []
        = Except.error (PyErr.valueError "No schema provided for processing.") ∧
    ∀ msg, heuristicProcess Option.none []
        ≠ Except.error (PyErr.schemaNotSubmitted msg) := by
  constructor
  · rfl
  · intro msg h
    have hk : (Except.error (PyErr.valueError "No schema provided for processing.")
        : Except PyErr (List (String × PyVal) × List (String × PyVal) × List (String × PyVal)))
        = Except.error (PyErr.schemaNotSubmitted msg) := by
      rw [← h]
      rfl
    simp at hk

/-- **C8, amended**: calls made before a schema has been submitted
fail fast, but with two different exception types: the schema handler's
own schema-dependent operations raise `SchemaNotSubmittedError` via
`_ensure_schema_submitted`, while `HeuristicProcessor.process` (and
`MachineLearningProcessor.process`) check the schema themselves and
raise `ValueError("No schema provided for processing.")`. -/
theorem schema_precondition_errors (data : List (String × PyVal)) :
    heuristicProcess Option.none data
        = Except.error (PyErr.valueError "No schema provided for processing.") ∧
    ensureSchemaSubmitted Option.none
        = Except.error (PyErr.schemaNotSubmitted "Schema must be submitted before calling this method.") :=
  ⟨rfl, rfl⟩

/-!
## Schema Normalizer: `SchemaHandler.submit_schema` / `_normalize_schema`
(`schema_handler.py` 53-94, 522-587)
-/

/-- The class attribute `python_type_mapping` (default state). -/
def pythonTypeMapping : PyType → Option String
  | PyType.str => Option.some "string"
  | PyType.int => Option.some "integer"
  | PyType.float => Option.some "number"
  | PyType.list => Option.some "list"
  | PyType.bool => Option.some "boolean"
  | PyType.dict => Option.some "object"
  | _ => Option.none

/-- `SchemaHandler._normalize_field` (563-586): a shorthand string
becomes `{"type": ...}` with `array` renamed to `list`; a detailed dict
only gets the `array` rename (nested keys are NOT normalized); a Python
type token goes through the type table; anything else raises. -/
def normalizeField : PyVal → Except PyErr PyVal
  | PyVal.str s =>
    Except.ok (PyVal.dict [("type", PyVal.str (if s = "array" then "list" else s))])
  | PyVal.dict d =>
    if isStrEq (dGet d "type") "array" then
      Except.ok (PyVal.dict (dSet d "type" (PyVal.str "list")))
    else
      Except.ok (PyVal.dict d)
  | PyVal.pytype t =>
    match pythonTypeMapping t with
    | Option.some j => Except.ok (PyVal.dict [("type", PyVal.str j)])
    | Option.none => Except.error (PyErr.valueError "Unsupported Python type in schema")
  | _ => Except.error (PyErr.valueError "Invalid field format")

/-- The `properties` comprehension of `_normalize_schema` (544-547):
sub-keys are normalized in the schema tree but NOT recorded in
`key_mapping`. -/
def normalizePropsAux : List (String × PyVal) → Except PyErr (List (String × PyVal))
  | [] => Except.ok []
  | (k, v) :: rest =>
    match normalizeField v with
    | Except.error e => Except.error e
    | Except.ok nf =>
      match normalizePropsAux rest with
      | Except.error e => Except.error e
      | Except.ok r => Except.ok ((normalize_text k, nf) :: r)

def normalizeProps (props : List (String × PyVal)) : Except PyErr (List (String × PyVal)) :=
  (normalizePropsAux props).map dFromList

/-- `normalize_text` applied to each element of a `required` list; a
non-string element makes `re.sub` raise `TypeError`. -/
def requireStrings : List PyVal → Except PyErr (List String)
  | [] => Except.ok []
  | PyVal.str s :: rest => (requireStrings rest).map (fun r => s :: r)
  | _ :: _ => Except.error (PyErr.typeError "expected string or bytes-like object")

/-- The per-key normalization of the loop body of `_normalize_schema`:
the `properties` / `required` / pass-through / field branches. -/
def normalizeEntry (key : String) (value : PyVal) : Except PyErr PyVal :=
  if key = "properties" then
    match value with
    | PyVal.dict props => (normalizeProps props).map PyVal.dict
    | _ => Except.error (PyErr.valueError "Invalid schema format for properties")
  else if key = "required" then
    match value with
    | PyVal.list items =>
      (requireStrings items).map
        (fun ss => PyVal.list (ss.map (fun t => PyVal.str (normalize_text t))))
    | _ => Except.error (PyErr.valueError "Invalid schema format for required")
  else if key = "additionalProperties" ∨ key = "type" then
    Except.ok value
  else
    normalizeField value

/-- `SchemaHandler._normalize_schema` (522-561): for every top-level
key, record `normalized_key -> original key` in the key mapping (a
collision only logs a warning, the later key wins) and normalize the
value with `normalizeEntry`.  The accumulator pair is
(normalized schema so far, key mapping so far). -/
def normalizeSchema : List (String × PyVal) →
    (List (String × PyVal)) × (List (String × String)) →
    Except PyErr ((List (String × PyVal)) × (List (String × String)))
  | [], acc => Except.ok acc
  | (key, value) :: rest, (norm, km) =>
    match normalizeEntry key value with
    | Except.error e => Except.error e
    | Except.ok nv =>
      normalizeSchema rest
        (dSet norm (normalize_text key) nv, dSet km (normalize_text key) key)

/-- Valid draft-7 `type` values. -/
def typeNameOk1 : PyVal → Bool
  | PyVal.str s =>
    s = "array" ∨ s = "boolean" ∨ s = "integer" ∨ s = "null" ∨
    s = "number" ∨ s = "object" ∨ s = "string"
  | _ => false

def typeNameOk : PyVal → Bool
  | PyVal.list xs => xs.all typeNameOk1
  | v => typeNameOk1 v

mutual

/-- Model of `jsonschema.Draft7Validator.check_schema` (an external
dependency), restricted to the keywords this repository's schemas use:
a schema is a dict or a boolean; `properties` values and `items` must
themselves be schemas, `required` must be a list of strings, `type`
must name draft-7 types.  Unknown keywords are unconstrained, matching
the draft-7 metaschema (which is why the repository's field shorthands
like `{"age": "integer"}` validate).  The fuel only bounds nesting. -/
def draft7CheckSchemaF : Nat → PyVal → Bool
  | 0, _ => false
  | _ + 1, PyVal.bool _ => true
  | fuel + 1, PyVal.dict d => draft7CheckPairsF fuel d
  | _ + 1, _ => false

def draft7CheckPairsF : Nat → List (String × PyVal) → Bool
  | 0, _ => false
  | _ + 1, [] => true
  | fuel + 1, (k, v) :: rest => draft7KeyOkF fuel k v && draft7CheckPairsF fuel rest

def draft7KeyOkF : Nat → String → PyVal → Bool
  | 0, _, _ => false
  | fuel + 1, k, v =>
    if k = "properties" then
      match v with
      | PyVal.dict props => draft7CheckValuesF fuel props
      | _ => false
    else if k = "required" then
      match v with
      | PyVal.list xs => xs.all (fun x => match x with | PyVal.str _ => true | _ => false)
      | _ => false
    else if k = "type" then typeNameOk v
    else if k = "items" then
      draft7CheckSchemaF fuel v ||
        (match v with
         | PyVal.list xs => draft7CheckListF fuel xs
         | _ => false)
    else true

def draft7CheckValuesF : Nat → List (String × PyVal) → Bool
  | 0, _ => false
  | _ + 1, [] => true
  | fuel + 1, (_, v) :: rest => draft7CheckSchemaF fuel v && draft7CheckValuesF fuel rest

def draft7CheckListF : Nat → List PyVal → Bool
  | 0, _ => false
  | _ + 1, [] => true
  | fuel + 1, v :: rest => draft7CheckSchemaF fuel v && draft7CheckListF fuel rest

end

def draft7CheckSchema (v : PyVal) : Bool := draft7CheckSchemaF 1000000 v

/-- `SchemaHandler.submit_schema` (53-94) for dict inputs (a JSON-string
input is parsed by `json.loads` into a dict and handled identically).
`key_mapping` persists on the handler across submissions and is
threaded as `km0`.  Returns the pair
(`normalized_schema`, `key_mapping`). -/
def submit_schema (schema : PyVal) (km0 : List (String × String)) :
    Except PyErr ((List (String × PyVal)) × (List (String × String))) :=
  match schema with
  | PyVal.dict d =>
    if draft7CheckSchema (PyVal.dict d) then
      normalizeSchema d ([], km0)
    else
      Except.error (PyErr.valueError "Invalid schema")
  | _ => Except.error (PyErr.valueError "Unsupported schema format: Expected a dictionary")

/-- All keys appearing anywhere in a normalized-schema tree. -/
def schemaKeysF : Nat → PyVal → List String
  | 0, _ => []
  | fuel + 1, PyVal.dict d =>
    d.foldl (fun acc kv => acc ++ kv.1 :: schemaKeysF fuel kv.2) []
  | fuel + 1, PyVal.list xs => xs.foldl (fun acc v => acc ++ schemaKeysF fuel v) []
  | _ + 1, _ => []

def schemaKeys (v : PyVal) : List String := schemaKeysF 1000000 v

/-!
### Dict lemmas and the key-mapping round-trip (C4)
-/

theorem dGet_dSet_self {α : Type} (d : List (String × α)) (k : String) (v : α) :
    dGet (dSet d k v) k = Option.some v := by
  induction d with
  | nil => simp [dSet, dGet]
  | cons kv rest ih =>
    rcases kv with ⟨k0, v0⟩
    by_cases h : k0 = k
    · subst h
      simp [dSet, dGet]
    · simp [dSet, dGet, h, ih]

theorem dGet_dSet_other {α : Type} (d : List (String × α)) (k k2 : String) (v : α)
    (h : k ≠ k2) : dGet (dSet d k v) k2 = dGet d k2 := by
  induction d with
  | nil => simp [dSet, dGet, h]
  | cons kv rest ih =>
    rcases kv with ⟨k0, v0⟩
    by_cases h0 : k0 = k
    · subst h0
      simp [dSet, dGet, h, ih]
    · simp only [dSet, if_neg h0]
      by_cases h2 : k0 = k2
      · subst h2
        simp [dGet]
      · simp [dGet, h2, ih]

theorem dMem_dSet {α : Type} (d : List (String × α)) (k k2 : String) (v : α) :
    dMem (dSet d k v) k2 = true ↔ k2 = k ∨ dMem d k2 = true := by
  by_cases h : k = k2
  · subst h
    simp [dMem, dGet_dSet_self]
  · rw [dMem, dGet_dSet_other d k k2 v h]
    constructor
    · intro hh
      exact Or.inr hh
    · intro hh
      rcases hh with hh | hh
      · exact absurd hh.symm h
      · exact hh

/-- The round-trip invariant of the key mapping relative to a
normalized-schema dict. -/
def GoodKM (norm : List (String × PyVal)) (km : List (String × String)) : Prop :=
  ∀ k, dMem norm k = true →
    ∃ orig, dGet km k = Option.some orig ∧ normalize_text orig = k

theorem normalizeSchema_good :
    ∀ (entries : List (String × PyVal)) (normAcc : List (String × PyVal))
      (kmAcc : List (String × String)) (norm : List (String × PyVal))
      (km : List (String × String)),
      GoodKM normAcc kmAcc →
      normalizeSchema entries (normAcc, kmAcc) = Except.ok (norm, km) →
      GoodKM norm km := by
  intro entries
  induction entries with
  | nil =>
    intro normAcc kmAcc norm km hg h
    simp only [normalizeSchema, Except.ok.injEq, Prod.mk.injEq] at h
    rw [← h.1, ← h.2]
    exact hg
  | cons kv rest ih =>
    rcases kv with ⟨key, value⟩
    intro normAcc kmAcc norm km hg h
    simp only [normalizeSchema] at h
    cases hne : normalizeEntry key value with
    | error e => rw [hne] at h; simp at h
    | ok nv =>
      rw [hne] at h
      apply ih _ _ _ _ _ h
      intro k hk
      rcases (dMem_dSet normAcc (normalize_text key) k nv).mp hk with hkk | hkk
      · subst hkk
        exact ⟨key, dGet_dSet_self kmAcc (normalize_text key) key, rfl⟩
      · by_cases hkn : k = normalize_text key
        · subst hkn
          exact ⟨key, dGet_dSet_self kmAcc (normalize_text key) key, rfl⟩
        · obtain ⟨orig, ho, hn⟩ := hg k hkk
          refine ⟨orig, ?_, hn⟩
          rw [dGet_dSet_other kmAcc (normalize_text key) k key (fun hh => hkn hh.symm)]
          exact ho

/-- **C4, amended**: for every schema dict accepted by `submit_schema`
(whatever key mapping was accumulated before), every top-level
canonical key of the resulting normalized schema has an entry in the
key mapping, and normalizing that entry's original key yields the same
canonical key (round-trip).  Canonical keys that appear deeper in the
tree - the normalized sub-keys of a `properties` block - are NOT
recorded in the key mapping (see the counterexample). -/
theorem key_mapping_top_roundtrip (schema : PyVal) (km0 : List (String × String))
    (norm : List (String × PyVal)) (km : List (String × String))
    (h : submit_schema schema km0 = Except.ok (norm, km)) :
    ∀ k, dMem norm k = true →
      ∃ orig, dGet km k = Option.some orig ∧ normalize_text orig = k := by
  unfold submit_schema at h
  cases schema with
  | dict d =>
    simp only [] at h
    by_cases hc : draft7CheckSchema (PyVal.dict d) = true
    · rw [if_pos hc] at h
      refine normalizeSchema_good d [] km0 norm km ?_ h
      intro k hk
      simp [dMem, dGet] at hk
    · rw [if_neg hc] at h
      simp at h
  | str s => simp at h
  | int n => simp at h
  | float f => simp at h
  | bool b => simp at h
  | list xs => simp at h
  | pytype t => simp at h
  | none => simp at h

/-- **C4, witness**: the amended round-trip at the concrete schema
`{"Key A": "integer"}`. -/
theorem key_mapping_top_roundtrip_witness :
    ∃ orig, dGet [("key_a", "Key A")] "key_a" = Option.some orig ∧
      normalize_text orig = "key_a" :=
  key_mapping_top_roundtrip (PyVal.dict [("Key A", PyVal.str "integer")]) []
    [("key_a", PyVal.dict [("type", PyVal.str "integer")])] [("key_a", "Key A")]
    rfl "key_a" rfl

def c4Schema : PyVal :=
  PyVal.dict [("properties", PyVal.dict
    [("userName", PyVal.dict [("type", PyVal.str "string")])])]

def c4Norm : List (String × PyVal) :=
  [("properties", PyVal.dict
    [("user_name", PyVal.dict [("type", PyVal.str "string")])])]

/-- **C4, counterexample**: the schema
`{"properties": {"userName": {"type": "string"}}}` (a well-formed
draft-7 document using the nested `properties` shape) is accepted by
`submit_schema`, its normalized form contains the canonical key
`user_name`, but the key mapping only records `properties`: the
`properties` comprehension of `_normalize_schema` (lines 544-547)
normalizes sub-keys without adding them to `key_mapping`, so `user_name`
has no entry and no round-trip. -/
theorem key_mapping_counterexample :
    submit_schema c4Schema [] = Except.ok (c4Norm, [("properties", "properties")]) ∧
    "user_name" ∈ schemaKeys (PyVal.dict c4Norm) ∧
    dGet [("properties", "properties")] "user_name" = Option.none := by
  refine ⟨rfl, ?_, rfl⟩
  decide

/-!
## Result Accumulator: `DataManager` (`data_manager.py`)
-/

/-- `ResultData` (6-21): three maps.  (The `__setattr__` hook converts a
list of one-entry dicts to a dict at assignment time; a `ResultData`
always holds dicts.) -/
structure ResultData where
  matched : List (String × PyVal)
  unmatched : List (String × PyVal)
  errors : List (String × PyVal)

/-- The accumulated state: the three maps of a `DataManager` (the
`results` history list is only read at `results[-1]`, which `_update`
receives here as its argument). -/
structure DMState where
  matched : List (String × PyVal)
  unmatched : List (String × PyVal)
  errors : List (String × PyVal)

def dmEmpty : DMState := ⟨[], [], []⟩

/-- Step 1 of `_update` (56-65): every matched key of the new pass
overwrites `matched` and is popped from `unmatched` and `errors`. -/
def dmStep1 : List (String × PyVal) → DMState → DMState
  | [], s => s
  | (k, v) :: rest, s =>
    dmStep1 rest
      { matched := dSet s.matched k v,
        unmatched := dPop s.unmatched k,
        errors := dPop s.errors k }

/-- Step 2 of `_update` (68-71): unmatched keys of the new pass are
added only when not already matched or unmatched. -/
def dmStep2 : List (String × PyVal) → DMState → DMState
  | [], s => s
  | (k, v) :: rest, s =>
    dmStep2 rest
      (if dMem s.matched k = false ∧ dMem s.unmatched k = false then
        { s with unmatched := dSet s.unmatched k v }
      else s)

/-- Step 4 of `_update` (82-85): error keys of the new pass are added
only when not already matched or unmatched. -/
def dmStep4 : List (String × PyVal) → DMState → DMState
  | [], s => s
  | (k, v) :: rest, s =>
    dmStep4 rest
      (if dMem s.matched k = false ∧ dMem s.unmatched k = false then
        { s with errors := dSet s.errors k v }
      else s)

/-- `DataManager._update` (50-100): steps 3 and 5 prune accumulated
unmatched/error keys that are absent from the new pass's corresponding
map. -/
def dmUpdate (st : DMState) (r : ResultData) : DMState :=
  let st1 := dmStep1 r.matched st
  let st2 := dmStep2 r.unmatched st1
  let st3 := { st2 with
    unmatched := st2.unmatched.filter (fun kv => dMem r.unmatched kv.1) }
  let st4 := dmStep4 r.errors st3
  { st4 with errors := st4.errors.filter (fun kv => dMem r.errors kv.1) }

/-- `DataManager.add_result` (34-38): append the pass and `_update`. -/
def add_result (st : DMState) (r : ResultData) : DMState := dmUpdate st r

/-- The three maps of a state are pairwise disjoint by key. -/
def StateDisjoint (st : DMState) : Prop :=
  ∀ k, ¬(dMem st.matched k = true ∧ dMem st.unmatched k = true) ∧
       ¬(dMem st.matched k = true ∧ dMem st.errors k = true) ∧
       ¬(dMem st.unmatched k = true ∧ dMem st.errors k = true)

/-- The three maps of one pass are pairwise disjoint by key. -/
def RDDisjoint (r : ResultData) : Prop :=
  ∀ k, ¬(dMem r.matched k = true ∧ dMem r.unmatched k = true) ∧
       ¬(dMem r.matched k = true ∧ dMem r.errors k = true) ∧
       ¬(dMem r.unmatched k = true ∧ dMem r.errors k = true)

theorem dMem_cons {α : Type} (k0 : String) (v0 : α) (d : List (String × α)) (k : String) :
    dMem ((k0, v0) :: d) k = true ↔ k0 = k ∨ dMem d k = true := by
  by_cases h : k0 = k
  · simp [dMem, dGet, h]
  · simp [dMem, dGet, h]

theorem dMem_dPop {α : Type} (d : List (String × α)) (k0 k : String) :
    dMem (dPop d k0) k = true ↔ dMem d k = true ∧ k ≠ k0 := by
  induction d with
  | nil => simp [dPop, dMem, dGet]
  | cons kv rest ih =>
    rcases kv with ⟨k1, v1⟩
    by_cases h1 : k1 = k0
    · subst h1
      rw [show dPop ((k1, v1) :: rest) k1 = dPop rest k1 from by simp [dPop]]
      rw [ih, dMem_cons]
      constructor
      · intro hh
        exact ⟨Or.inr hh.1, hh.2⟩
      · rintro ⟨hh | hh, hne⟩
        · exact absurd hh (fun hh2 => hne hh2.symm)
        · exact ⟨hh, hne⟩
    · rw [show dPop ((k1, v1) :: rest) k0 = (k1, v1) :: dPop rest k0 from by simp [dPop, h1]]
      rw [dMem_cons, dMem_cons, ih]
      constructor
      · rintro (hh | hh)
        · subst hh
          exact ⟨Or.inl rfl, fun he => h1 (he ▸ rfl)⟩
        · exact ⟨Or.inr hh.1, hh.2⟩
      · rintro ⟨hh | hh, hne⟩
        · exact Or.inl hh
        · exact Or.inr ⟨hh, hne⟩

theorem dMem_filterKey {α : Type} (d : List (String × α)) (f : String → Bool) (k : String)
    (h : dMem (d.filter (fun kv => f kv.1)) k = true) :
    dMem d k = true ∧ f k = true := by
  induction d with
  | nil => simp [dMem, dGet] at h
  | cons kv rest ih =>
    rcases kv with ⟨k1, v1⟩
    by_cases hf : f k1 = true
    · rw [List.filter_cons, if_pos (by simpa using hf)] at h
      rw [dMem_cons] at h
      rcases h with hh | hh
      · subst hh
        exact ⟨(dMem_cons k1 v1 rest k1).mpr (Or.inl rfl), hf⟩
      · obtain ⟨h1, h2⟩ := ih hh
        exact ⟨(dMem_cons k1 v1 rest k).mpr (Or.inr h1), h2⟩
    · rw [List.filter_cons, if_neg (by simpa using hf)] at h
      obtain ⟨h1, h2⟩ := ih h
      exact ⟨(dMem_cons k1 v1 rest k).mpr (Or.inr h1), h2⟩

theorem dmStep1_matched (l : List (String × PyVal)) :
    ∀ (s : DMState) (k : String),
      dMem (dmStep1 l s).matched k = true ↔ dMem s.matched k = true ∨ dMem l k = true := by
  induction l with
  | nil =>
    intro s k
    simp [dmStep1, dMem, dGet]
  | cons kv rest ih =>
    rcases kv with ⟨k0, v0⟩
    intro s k
    rw [dmStep1, ih, dMem_dSet, dMem_cons]
    tauto

theorem dmStep1_unmatched (l : List (String × PyVal)) :
    ∀ (s : DMState) (k : String),
      dMem (dmStep1 l s).unmatched k = true ↔
        dMem s.unmatched k = true ∧ dMem l k = false := by
  induction l with
  | nil =>
    intro s k
    simp [dmStep1, dMem, dGet]
  | cons kv rest ih =>
    rcases kv with ⟨k0, v0⟩
    intro s k
    rw [dmStep1, ih]
    show dMem (dPop s.unmatched k0) k = true ∧ _ ↔ _
    rw [dMem_dPop]
    constructor
    · rintro ⟨⟨h1, h2⟩, h3⟩
      refine ⟨h1, ?_⟩
      rw [Bool.eq_false_iff]
      intro hc
      rcases (dMem_cons k0 v0 rest k).mp hc with hh | hh
      · exact h2 hh.symm
      · rw [hh] at h3
        simp at h3
    · rintro ⟨h1, h2⟩
      have hno : ¬ (k0 = k ∨ dMem rest k = true) := by
        intro hc
        rw [← dMem_cons k0 v0 rest k] at hc
        rw [hc] at h2
        simp at h2
      push_neg at hno
      refine ⟨⟨h1, fun he => hno.1 he.symm⟩, ?_⟩
      rw [Bool.eq_false_iff]
      exact hno.2

theorem dmStep1_errors (l : List (String × PyVal)) :
    ∀ (s : DMState) (k : String),
      dMem (dmStep1 l s).errors k = true ↔
        dMem s.errors k = true ∧ dMem l k = false := by
  induction l with
  | nil =>
    intro s k
    simp [dmStep1, dMem, dGet]
  | cons kv rest ih =>
    rcases kv with ⟨k0, v0⟩
    intro s k
    rw [dmStep1, ih]
    show dMem (dPop s.errors k0) k = true ∧ _ ↔ _
    rw [dMem_dPop]
    constructor
    · rintro ⟨⟨h1, h2⟩, h3⟩
      refine ⟨h1, ?_⟩
      rw [Bool.eq_false_iff]
      intro hc
      rcases (dMem_cons k0 v0 rest k).mp hc with hh | hh
      · exact h2 hh.symm
      · rw [hh] at h3
        simp at h3
    · rintro ⟨h1, h2⟩
      have hno : ¬ (k0 = k ∨ dMem rest k = true) := by
        intro hc
        rw [← dMem_cons k0 v0 rest k] at hc
        rw [hc] at h2
        simp at h2
      push_neg at hno
      refine ⟨⟨h1, fun he => hno.1 he.symm⟩, ?_⟩
      rw [Bool.eq_false_iff]
      exact hno.2

theorem dmStep2_matched (l : List (String × PyVal)) :
    ∀ s : DMState, (dmStep2 l s).matched = s.matched := by
  induction l with
  | nil => intro s; rfl
  | cons kv rest ih =>
    rcases kv with ⟨k0, v0⟩
    intro s
    rw [dmStep2, ih]
    by_cases h : dMem s.matched k0 = false ∧ dMem s.unmatched k0 = false
    · rw [if_pos h]
    · rw [if_neg h]

theorem dmStep2_errors (l : List (String × PyVal)) :
    ∀ s : DMState, (dmStep2 l s).errors = s.errors := by
  induction l with
  | nil => intro s; rfl
  | cons kv rest ih =>
    rcases kv with ⟨k0, v0⟩
    intro s
    rw [dmStep2, ih]
    by_cases h : dMem s.matched k0 = false ∧ dMem s.unmatched k0 = false
    · rw [if_pos h]
    · rw [if_neg h]

theorem dmStep2_unmatched_sound (l : List (String × PyVal)) :
    ∀ (s : DMState) (k : String),
      dMem (dmStep2 l s).unmatched k = true →
        dMem s.unmatched k = true ∨ dMem s.matched k = false := by
  induction l with
  | nil =>
    intro s k h
    exact Or.inl h
  | cons kv rest ih =>
    rcases kv with ⟨k0, v0⟩
    intro s k h
    rw [dmStep2] at h
    by_cases hg : dMem s.matched k0 = false ∧ dMem s.unmatched k0 = false
    · rw [if_pos hg] at h
      rcases ih _ k h with hh | hh
      · rcases (dMem_dSet s.unmatched k0 k v0).mp hh with he | he
        · subst he
          exact Or.inr hg.1
        · exact Or.inl he
      · exact Or.inr hh
    · rw [if_neg hg] at h
      exact ih s k h

theorem dmStep4_matched (l : List (String × PyVal)) :
    ∀ s : DMState, (dmStep4 l s).matched = s.matched := by
  induction l with
  | nil => intro s; rfl
  | cons kv rest ih =>
    rcases kv with ⟨k0, v0⟩
    intro s
    rw [dmStep4, ih]
    by_cases h : dMem s.matched k0 = false ∧ dMem s.unmatched k0 = false
    · rw [if_pos h]
    · rw [if_neg h]

theorem dmStep4_unmatched (l : List (String × PyVal)) :
    ∀ s : DMState, (dmStep4 l s).unmatched = s.unmatched := by
  induction l with
  | nil => intro s; rfl
  | cons kv rest ih =>
    rcases kv with ⟨k0, v0⟩
    intro s
    rw [dmStep4, ih]
    by_cases h : dMem s.matched k0 = false ∧ dMem s.unmatched k0 = false
    · rw [if_pos h]
    · rw [if_neg h]

theorem dmStep4_errors_sound (l : List (String × PyVal)) :
    ∀ (s : DMState) (k : String),
      dMem (dmStep4 l s).errors k = true →
        dMem s.errors k = true ∨ dMem s.matched k = false := by
  induction l with
  | nil =>
    intro s k h
    exact Or.inl h
  | cons kv rest ih =>
    rcases kv with ⟨k0, v0⟩
    intro s k h
    rw [dmStep4] at h
    by_cases hg : dMem s.matched k0 = false ∧ dMem s.unmatched k0 = false
    · rw [if_pos hg] at h
      rcases ih _ k h with hh | hh
      · rcases (dMem_dSet s.errors k0 k v0).mp hh with he | he
        · subst he
          exact Or.inr hg.1
        · exact Or.inl he
      · exact Or.inr hh
    · rw [if_neg hg] at h
      exact ih s k h

theorem dmUpdate_matched (st : DMState) (r : ResultData) :
    (dmUpdate st r).matched = (dmStep1 r.matched st).matched := by
  show (dmStep4 r.errors _).matched = _
  rw [dmStep4_matched]
  show (dmStep2 r.unmatched _).matched = _
  rw [dmStep2_matched]

theorem dmUpdate_unmatched (st : DMState) (r : ResultData) :
    (dmUpdate st r).unmatched =
      (dmStep2 r.unmatched (dmStep1 r.matched st)).unmatched.filter
        (fun kv => dMem r.unmatched kv.1) := by
  show (dmStep4 r.errors _).unmatched = _
  rw [dmStep4_unmatched]

theorem dmUpdate_errors (st : DMState) (r : ResultData) :
    (dmUpdate st r).errors =
      (dmStep4 r.errors
        { dmStep2 r.unmatched (dmStep1 r.matched st) with
          unmatched := (dmStep2 r.unmatched (dmStep1 r.matched st)).unmatched.filter
            (fun kv => dMem r.unmatched kv.1) }).errors.filter
        (fun kv => dMem r.errors kv.1) := rfl

/-- Merging a pairwise-disjoint pass into a pairwise-disjoint state
yields a pairwise-disjoint state. -/
theorem dmUpdate_disjoint (st : DMState) (r : ResultData)
    (hst : StateDisjoint st) (hr : RDDisjoint r) :
    StateDisjoint (dmUpdate st r) := by
  intro k
  have hM : dMem (dmUpdate st r).matched k = true ↔
      (dMem st.matched k = true ∨ dMem r.matched k = true) := by
    rw [dmUpdate_matched, dmStep1_matched]
  have hU : dMem (dmUpdate st r).unmatched k = true →
      dMem r.unmatched k = true ∧
        (dMem st.unmatched k = true ∧ dMem r.matched k = false ∨
          dMem (dmStep1 r.matched st).matched k = false) := by
    intro h
    rw [dmUpdate_unmatched] at h
    obtain ⟨h1, h2⟩ := dMem_filterKey _ _ _ h
    refine ⟨h2, ?_⟩
    rcases dmStep2_unmatched_sound r.unmatched (dmStep1 r.matched st) k h1 with hh | hh
    · rw [dmStep1_unmatched] at hh
      exact Or.inl hh
    · exact Or.inr hh
  have hE : dMem (dmUpdate st r).errors k = true →
      dMem r.errors k = true ∧
        (dMem st.errors k = true ∧ dMem r.matched k = false ∨
          dMem (dmStep1 r.matched st).matched k = false) := by
    intro h
    rw [dmUpdate_errors] at h
    obtain ⟨h1, h2⟩ := dMem_filterKey _ _ _ h
    refine ⟨h2, ?_⟩
    have h3 := dmStep4_errors_sound r.errors _ k h1
    rcases h3 with hh | hh
    · have he3 : ({ dmStep2 r.unmatched (dmStep1 r.matched st) with
          unmatched := (dmStep2 r.unmatched (dmStep1 r.matched st)).unmatched.filter
            (fun kv => dMem r.unmatched kv.1) }).errors
          = (dmStep1 r.matched st).errors := dmStep2_errors _ _
      rw [he3, dmStep1_errors] at hh
      exact Or.inl hh
    · have hm3 : ({ dmStep2 r.unmatched (dmStep1 r.matched st) with
          unmatched := (dmStep2 r.unmatched (dmStep1 r.matched st)).unmatched.filter
            (fun kv => dMem r.unmatched kv.1) }).matched
          = (dmStep1 r.matched st).matched := dmStep2_matched _ _
      rw [hm3] at hh
      exact Or.inr hh
  have hMstep1 : dMem (dmStep1 r.matched st).matched k = true ↔
      (dMem st.matched k = true ∨ dMem r.matched k = true) := dmStep1_matched _ _ _
  refine ⟨?_, ?_, ?_⟩
  · rintro ⟨hm, hu⟩
    obtain ⟨hru, hrest⟩ := hU hu
    rcases hrest with ⟨hsu, hrm⟩ | hfalse
    · rcases hM.mp hm with hh | hh
      · exact (hst k).1 ⟨hh, hsu⟩
      · rw [hh] at hrm
        simp at hrm
    · rw [hMstep1.mpr (hM.mp hm)] at hfalse
      simp at hfalse
  · rintro ⟨hm, he⟩
    obtain ⟨hre, hrest⟩ := hE he
    rcases hrest with ⟨hse, hrm⟩ | hfalse
    · rcases hM.mp hm with hh | hh
      · exact (hst k).2.1 ⟨hh, hse⟩
      · rw [hh] at hrm
        simp at hrm
    · rw [hMstep1.mpr (hM.mp hm)] at hfalse
      simp at hfalse
  · rintro ⟨hu, he⟩
    obtain ⟨hru, _⟩ := hU hu
    obtain ⟨hre, _⟩ := hE he
    exact (hr k).2.2 ⟨hru, hre⟩

theorem dMem_singleton {α : Type} (a : String) (v : α) (k : String) :
    dMem [(a, v)] k = true ↔ a = k := by
  by_cases h : a = k <;> simp [dMem, dGet, h]

/-- The two passes of the counterexample: the second pass lists the same
key both as unmatched and as an error. -/
def dmPass1 : ResultData := ⟨[], [], [("k", PyVal.int 1)]⟩

def dmPass2 : ResultData := ⟨[], [("k", PyVal.int 2)], [("k", PyVal.int 1)]⟩

/-- **C1, counterexample**: after the pass sequence
`[{errors: {k: 1}}, {unmatched: {k: 2}, errors: {k: 1}}]` the
accumulated state has `k` both in `unmatched` and in `errors`: step 4
of `_update` refuses to add `k` to `errors` (it is unmatched by then),
but the stale `errors` entry from the first pass survives step 5's
pruning because `k` IS in the new pass's `errors` map.  So the maps are
not pairwise disjoint for every sequence of passes. -/
theorem dm_disjoint_counterexample :
    dMem ([dmPass1, dmPass2].foldl add_result dmEmpty).unmatched "k" = true ∧
    dMem ([dmPass1, dmPass2].foldl add_result dmEmpty).errors "k" = true := ⟨rfl, rfl⟩

/-- **C1, amended**: if every incoming pass's three maps are themselves
pairwise disjoint by key (which is what a Result Partition is), then
after every sequence of `add_result` calls starting from the empty
state, the accumulated `matched`, `unmatched` and `errors` maps are
pairwise disjoint by key. -/
theorem dm_disjoint_of_disjoint_passes (rs : List ResultData)
    (h : ∀ r ∈ rs, RDDisjoint r) :
    StateDisjoint (rs.foldl add_result dmEmpty) := by
  have main : ∀ (l : List ResultData) (st : DMState), StateDisjoint st →
      (∀ r ∈ l, RDDisjoint r) → StateDisjoint (l.foldl add_result st) := by
    intro l
    induction l with
    | nil =>
      intro st hs _
      exact hs
    | cons r rest ih =>
      intro st hs hall
      exact ih _ (dmUpdate_disjoint st r hs (hall r (by simp)))
        (fun r2 hr2 => hall r2 (by simp [hr2]))
  apply main rs dmEmpty _ h
  intro k
  refine ⟨?_, ?_, ?_⟩ <;> rintro ⟨h1, _⟩ <;> simp [dmEmpty, dMem, dGet] at h1

/-- **C1, witness**: the amended invariant at a concrete two-pass
sequence with disjoint passes. -/
theorem dm_disjoint_witness :
    StateDisjoint ([(⟨[("a", PyVal.int 1)], [("b", PyVal.int 2)], [("c", PyVal.int 3)]⟩ : ResultData),
        (⟨[("b", PyVal.int 4)], [], [("d", PyVal.int 5)]⟩ : ResultData)].foldl add_result dmEmpty) := by
  apply dm_disjoint_of_disjoint_passes
  intro r hr
  simp only [List.mem_cons, List.not_mem_nil, or_false] at hr
  rcases hr with hr | hr <;> subst hr <;> intro k <;> refine ⟨?_, ?_, ?_⟩ <;>
      rintro ⟨h1, h2⟩ <;>
      simp only [dMem_singleton] at h1 h2 <;>
      first
        | (rw [← h1] at h2; exact absurd h2 (by decide))
        | (simp [dMem, dGet] at h1)
        | (simp [dMem, dGet] at h2)

/-! ### MachineLearningProcessor (ml_processor.py)

`rapidfuzz.fuzz.ratio` is a pure string-similarity score and
`_get_bert_similarity` runs model inference, which may fail at runtime;
both are parameters of the embedding: `ratioFn` is total, `bertSim`
returns `Except`.  `misspelling_threshold = 75`,
`synonym_threshold = 0.75`, both compared with strict `>`. -/

/-- Strict `<` on the exact fractions representing Python floats (the
code only compares floats with positive denominators). -/
def pfLt (a b : PyFloat) : Bool :=
  decide (a.num * (b.den : Int) < b.num * (a.den : Int))

/-- The best-match scan of `_predict_misspellings`: keep the schema key
whose score strictly exceeds the best so far, starting from
`best_match = None`, `best_score = 0`. -/
def bestMatch (score : String → String → PyFloat) (key : String) :
    List String → Option String → PyFloat → Option String × PyFloat
  | [], best, bestScore => (best, bestScore)
  | sk :: rest, best, bestScore =>
      if pfLt bestScore (score key sk) then
        bestMatch score key rest (Option.some sk) (score key sk)
      else
        bestMatch score key rest best bestScore

/-- `_predict_misspellings`: fuzzy-match every unmatched key against
the schema keys; record `transformed_data[best_match] = value` when the
best match is truthy and its score exceeds the threshold 75. -/
def predictMisspellings (ratioFn : String → String → PyFloat)
    (unmatched : List (String × PyVal)) (schemaKeys : List String) :
    List (String × PyVal) :=
  if unmatched.isEmpty then [] else
  unmatched.foldl (fun transformed kv =>
    match bestMatch ratioFn kv.1 schemaKeys Option.none ⟨0, 1⟩ with
    | (Option.none, _) => transformed
    | (Option.some bm, bs) =>
        if !bm.isEmpty && pfLt ⟨75, 1⟩ bs then dSet transformed bm kv.2
        else transformed) []

/-- The best-match scan of `_predict_synonyms`; a backend failure on
any similarity call propagates out of the scan. -/
def bestMatchE (score : String → String → Except PyErr PyFloat) (key : String) :
    List String → Option String → PyFloat → Except PyErr (Option String × PyFloat)
  | [], best, bestScore => Except.ok (best, bestScore)
  | sk :: rest, best, bestScore =>
      match score key sk with
      | Except.error e => Except.error e
      | Except.ok sc =>
          if pfLt bestScore sc then bestMatchE score key rest (Option.some sk) sc
          else bestMatchE score key rest best bestScore

def predictSynonymsGo (bertSim : String → String → Except PyErr PyFloat)
    (schemaKeys : List String) :
    List (String × PyVal) → List (String × PyVal) →
      Except PyErr (List (String × PyVal))
  | [], transformed => Except.ok transformed
  | kv :: rest, transformed =>
      match bestMatchE bertSim kv.1 schemaKeys Option.none ⟨0, 1⟩ with
      | Except.error e => Except.error e
      | Except.ok (Option.none, _) =>
          predictSynonymsGo bertSim schemaKeys rest transformed
      | Except.ok (Option.some bm, bs) =>
          if !bm.isEmpty && pfLt ⟨75, 100⟩ bs then
            predictSynonymsGo bertSim schemaKeys rest (dSet transformed bm kv.2)
          else predictSynonymsGo bertSim schemaKeys rest transformed

/-- `_predict_synonyms`: BERT-similarity match every unmatched key;
threshold 0.75, strict.  An inference failure propagates. -/
def predictSynonyms (bertSim : String → String → Except PyErr PyFloat)
    (unmatched : List (String × PyVal)) (schemaKeys : List String) :
    Except PyErr (List (String × PyVal)) :=
  if unmatched.isEmpty then Except.ok []
  else predictSynonymsGo bertSim schemaKeys unmatched []

/-- `_process_item`: fuzzy matching first; if it produced nothing, the
synonym step (which can fail), filtered to schema field names; else the
empty dict. -/
def processItemML (ratioFn : String → String → PyFloat)
    (bertSim : String → String → Except PyErr PyFloat)
    (item : List (String × PyVal)) (schema : List (String × PyVal)) :
    Except PyErr (List (String × PyVal)) :=
  let schemaFieldNames := schema.map (fun kv => kv.1)
  let fuzzy := predictMisspellings ratioFn item schemaFieldNames
  if !fuzzy.isEmpty then Except.ok fuzzy
  else
    match predictSynonyms bertSim item schemaFieldNames with
    | Except.error e => Except.error e
    | Except.ok syn =>
        let syn2 := syn.filter (fun kv => schemaFieldNames.contains kv.1)
        if !syn2.isEmpty then Except.ok syn2 else Except.ok []

/-- The per-key loop of `MachineLearningProcessor.process`: each
`_process_item` call is inside `try/except Exception`; success merges
into `processed_data` via `dict.update`, failure appends
`{key: value}` to `errors`.  Returns `(processed_data, errors)`. -/
def mlLoop (ratioFn : String → String → PyFloat)
    (bertSim : String → String → Except PyErr PyFloat)
    (schema : List (String × PyVal)) :
    List (String × PyVal) → List (String × PyVal) → List (String × PyVal) →
      List (String × PyVal) × List (String × PyVal)
  | [], processed, errors => (processed, errors)
  | kv :: rest, processed, errors =>
      match processItemML ratioFn bertSim [kv] schema with
      | Except.ok d =>
          mlLoop ratioFn bertSim schema rest
            (d.foldl (fun acc kv2 => dSet acc kv2.1 kv2.2) processed) errors
      | Except.error _ =>
          mlLoop ratioFn bertSim schema rest processed (errors ++ [kv])

/-- The `ResultData` built at the end of `process`:
`unmatched_keys` is initialized to `[]` and never appended to. -/
def mlProcessCore (ratioFn : String → String → PyFloat)
    (bertSim : String → String → Except PyErr PyFloat)
    (schema data : List (String × PyVal)) : ResultData :=
  ⟨(mlLoop ratioFn bertSim schema data [] []).1, [],
    (mlLoop ratioFn bertSim schema data [] []).2⟩

/-- `MachineLearningProcessor.process`: raises
`ValueError("No schema provided for processing.")` when the normalized
schema is falsy, otherwise runs the per-key loop. -/
def mlProcess (ratioFn : String → String → PyFloat)
    (bertSim : String → String → Except PyErr PyFloat)
    (schema data : List (String × PyVal)) : Except PyErr ResultData :=
  if schema.isEmpty then
    Except.error (PyErr.valueError "No schema provided for processing.")
  else Except.ok (mlProcessCore ratioFn bertSim schema data)

theorem mlLoop_errors_mono (ratioFn : String → String → PyFloat)
    (bertSim : String → String → Except PyErr PyFloat)
    (schema : List (String × PyVal)) :
    ∀ (l processed errors : List (String × PyVal)) (kv : String × PyVal),
      kv ∈ errors → kv ∈ (mlLoop ratioFn bertSim schema l processed errors).2 := by
  intro l
  induction l with
  | nil =>
    intro processed errors kv h
    exact h
  | cons hd rest ih =>
    intro processed errors kv h
    cases hpi : processItemML ratioFn bertSim [hd] schema with
    | ok d =>
      simp only [mlLoop, hpi]
      exact ih _ _ kv h
    | error e =>
      simp only [mlLoop, hpi]
      exact ih _ _ kv (List.mem_append_left _ h)

theorem mlLoop_fail_mem (ratioFn : String → String → PyFloat)
    (bertSim : String → String → Except PyErr PyFloat)
    (schema : List (String × PyVal)) :
    ∀ (l processed errors : List (String × PyVal)) (kv : String × PyVal),
      kv ∈ l → (∃ e, processItemML ratioFn bertSim [kv] schema = Except.error e) →
      kv ∈ (mlLoop ratioFn bertSim schema l processed errors).2 := by
  intro l
  induction l with
  | nil =>
    intro _ _ kv h _
    cases h
  | cons hd rest ih =>
    intro processed errors kv hmem hfail
    rcases List.mem_cons.mp hmem with heq | hmem2
    · subst heq
      obtain ⟨e, he⟩ := hfail
      simp only [mlLoop, he]
      exact mlLoop_errors_mono ratioFn bertSim schema rest processed
        (errors ++ [kv]) kv (List.mem_append_right _ (List.mem_singleton.mpr rfl))
    · cases hpi : processItemML ratioFn bertSim [hd] schema with
      | ok d =>
        simp only [mlLoop, hpi]
        exact ih _ _ kv hmem2 hfail
      | error e =>
        simp only [mlLoop, hpi]
        exact ih _ _ kv hmem2 hfail

/-- Oracles for the C9 counterexample: a fuzzy scorer that never
reaches the threshold and an embedding backend that always fails. -/
def ratioZero : String → String → PyFloat := fun _ _ => ⟨0, 1⟩

def bertFail : String → String → Except PyErr PyFloat :=
  fun _ _ => Except.error (PyErr.runtimeError "inference failed")

def c9Schema : List (String × PyVal) := [("name", PyVal.str "string")]

def c9Data : List (String × PyVal) := [("nme", PyVal.str "Bob")]

/-- **C9, counterexample**: with an embedding backend that fails on the
key "nme", `process` catches the failure per key and returns normally,
but the key lands in the ERRORS partition, not in unmatched: the
returned unmatched list is empty.  The spec says the key "is left in
the unmatched partition (not moved to matched or errors)". -/
theorem ml_failure_counterexample :
    mlProcess ratioZero bertFail c9Schema c9Data =
      Except.ok ⟨[], [], [("nme", PyVal.str "Bob")]⟩ := rfl

/-- **C9, amended**: for every similarity oracle and every input, a
failure of the embedding backend on a key's input is caught per key and
never propagated out of `process` (the call returns `ok` whenever a
schema is present), but the failing key is recorded in the `errors`
partition — the `unmatched` component of the returned `ResultData` is
always the empty list. -/
theorem ml_failure_never_propagates (ratioFn : String → String → PyFloat)
    (bertSim : String → String → Except PyErr PyFloat)
    (schema data : List (String × PyVal))
    (h : schema.isEmpty = false) :
    mlProcess ratioFn bertSim schema data =
      Except.ok (mlProcessCore ratioFn bertSim schema data) ∧
    (mlProcessCore ratioFn bertSim schema data).unmatched = [] ∧
    ∀ kv ∈ data,
      (∃ e, processItemML ratioFn bertSim [kv] schema = Except.error e) →
      kv ∈ (mlProcessCore ratioFn bertSim schema data).errors := by
  refine ⟨?_, rfl, ?_⟩
  · unfold mlProcess
    rw [if_neg]
    rw [h]
    exact Bool.false_ne_true
  · intro kv hmem hfail
    exact mlLoop_fail_mem ratioFn bertSim schema data [] [] kv hmem hfail

/-- **C9, witness**: the amended theorem at the concrete failing
backend: the failing key ends up in the errors partition. -/
theorem ml_failure_never_propagates_witness :
    ("nme", PyVal.str "Bob") ∈
      (mlProcessCore ratioZero bertFail c9Schema c9Data).errors :=
  (ml_failure_never_propagates ratioZero bertFail c9Schema c9Data rfl).2.2
    ("nme", PyVal.str "Bob") (List.mem_cons_self _ _)
    ⟨PyErr.runtimeError "inference failed", rfl⟩

end OpenAIJson
